import Mathlib

/-!
Verification of the MQCP-Thesis quasi-clique solver core.

The Rust sources (src/graph.rs, src/solution.rs, src/freq.rs, src/tabu.rs,
src/neighbour.rs, src/construct.rs, src/diversify.rs, src/restart.rs,
src/maxk.rs) are shallowly embedded below.  Machine integers (usize) are
modelled as Nat, f64 quantities as exact rationals, bit-vectors of width n
as Bool-valued functions on Nat read only below n, and the pseudo-random
source as an abstract tape of naturals, one cell consumed per random
primitive.  Fallible code (Rust panics / assertion failures) is modelled
with Option or an explicit result type.
-/

namespace MQCP

/-! Definitions: the shallow embedding of the source. -/

/-- Embeds struct Graph of src/graph.rs: n vertices and one adjacency bit-row
per vertex, read as adj u v for u, v < n. -/
structure Graph where
  n : Nat
  adj : Nat → Nat → Bool

/-- Well-formedness recorded in the spec's data model for Graph: the
adjacency matrix is symmetric with zero diagonal (within the row width). -/
def Graph.Wf (g : Graph) : Prop :=
  (∀ u, u < g.n → ∀ v, v < g.n → g.adj u v = g.adj v u) ∧
  (∀ v, v < g.n → g.adj v v = false)

/-- Embeds struct Solution of src/solution.rs: membership bit-vector plus
cached edge count and size. -/
structure Solution where
  vertices : Nat → Bool
  edge_count : Nat
  size : Nat

/-- Embeds Solution::new: the empty solution. -/
def Solution.new : Solution :=
  { vertices := fun _ => false, edge_count := 0, size := 0 }

/-- Popcount of a membership bit-vector of width n. -/
def memberCount (n : Nat) (mem : Nat → Bool) : Nat :=
  ((Finset.range n).filter fun u => mem u = true).card

/-- Embeds the word-parallel AND-popcount (graph.neigh_row(v) & bitset).count_ones():
the number of u < n with adj v u and mem u. -/
def connCount (g : Graph) (mem : Nat → Bool) (v : Nat) : Nat :=
  ((Finset.range g.n).filter fun u => g.adj v u = true ∧ mem u = true).card

/-- Number of unordered pairs of members joined by an edge, encoded as
ordered pairs (u, w) with u < w over the row width. -/
def pairCount (g : Graph) (mem : Nat → Bool) : Nat :=
  (((Finset.range g.n) ×ˢ (Finset.range g.n)).filter fun p =>
    p.1 < p.2 ∧ mem p.1 = true ∧ mem p.2 = true ∧ g.adj p.1 p.2 = true).card

/-- Embeds Solution::add of src/solution.rs: no-op when v is already a member,
otherwise set the bit, bump size, and add count_ones(row(v) AND members)
computed on the old membership. -/
def Solution.add (g : Graph) (s : Solution) (v : Nat) : Solution :=
  if s.vertices v = true then s
  else
    { vertices := fun u => if u = v then true else s.vertices u
      size := s.size + 1
      edge_count := s.edge_count + connCount g s.vertices v }

/-- Embeds Solution::remove of src/solution.rs: no-op when v is not a member,
otherwise clear the bit, drop size, and subtract count_ones(row(v) AND members)
computed on the old membership (which still contains v). -/
def Solution.remove (g : Graph) (s : Solution) (v : Nat) : Solution :=
  if s.vertices v = false then s
  else
    { vertices := fun u => if u = v then false else s.vertices u
      size := s.size - 1
      edge_count := s.edge_count - connCount g s.vertices v }

/-- Embeds Solution::density: 0 when size < 2, else 2*edge_count/(size*(size-1)),
with the f64 value modelled as an exact rational. -/
def Solution.density (s : Solution) : ℚ :=
  if s.size < 2 then 0
  else 2 * (s.edge_count : ℚ) / ((s.size : ℚ) * ((s.size : ℚ) - 1))

/-- Embeds Solution::is_gamma_feasible: density() + 1e-9 >= gamma. -/
def Solution.isGammaFeasible (s : Solution) (gamma : ℚ) : Bool :=
  decide (s.density + 1 / 1000000000 ≥ gamma)

/-- One raw mutator call of src/solution.rs. -/
inductive SolOp where
  | addOp (v : Nat)
  | rmOp (v : Nat)

/-- Vertex an operation touches. -/
def SolOp.vertex : SolOp → Nat
  | .addOp v => v
  | .rmOp v => v

/-- Applies one raw mutator. -/
def SolOp.apply (g : Graph) (s : Solution) : SolOp → Solution
  | .addOp v => s.add g v
  | .rmOp v => s.remove g v

/-- A sequence of Solution::add / Solution::remove calls starting from
Solution::new. -/
def applyOps (g : Graph) (ops : List SolOp) : Solution :=
  ops.foldl (fun s op => op.apply g s) Solution.new

/-- Cached-field invariant of a Solution over a Graph: members lie below n,
the cached size is the popcount of the membership bit-vector, and the cached
edge count is the number of member pairs joined by an edge. -/
def Inv (g : Graph) (s : Solution) : Prop :=
  (∀ u, s.vertices u = true → u < g.n) ∧
  s.size = memberCount g.n s.vertices ∧
  s.edge_count = pairCount g s.vertices

/-- Abstract pseudo-random source: a tape of naturals plus a read position;
each random primitive of the Rust code consumes one cell. -/
structure Rng where
  tape : Nat → Nat
  pos : Nat

/-- Models rng.gen_range(0..n) for n > 0: one tape cell reduced mod n. -/
def Rng.genRangeLt (r : Rng) (n : Nat) : Nat × Rng :=
  (r.tape r.pos % n, { r with pos := r.pos + 1 })

/-- Models rng.gen_range(0..=c): one tape cell reduced mod c+1. -/
def Rng.genRangeIncl (r : Rng) (c : Nat) : Nat × Rng :=
  (r.tape r.pos % (c + 1), { r with pos := r.pos + 1 })

/-- Models slice.choose(rng): None on the empty slice (no cell consumed),
otherwise the element at gen_range(0..len). -/
def Rng.chooseL {α : Type} (r : Rng) (xs : List α) : Option α × Rng :=
  if xs.isEmpty then (none, r)
  else (xs.get? (r.tape r.pos % xs.length), { r with pos := r.pos + 1 })

/-- Models rng.gen_bool(p): the Bernoulli outcome is taken from the tape
(one cell); only the fact that both outcomes can occur is modelled, not the
probability p itself. -/
def Rng.genBool (r : Rng) (_p : ℚ) : Bool × Rng :=
  ((r.tape r.pos) % 2 == 0, { r with pos := r.pos + 1 })

/-- Embeds struct DualTabu of src/tabu.rs: two expiry arrays (as functions),
the global iteration counter, and the two current tenures. -/
structure DualTabu where
  expiry_u : Nat → Nat
  expiry_v : Nat → Nat
  iter : Nat
  tu : Nat
  tv : Nat

/-- Embeds DualTabu::new: zeroed expiries, iter 0, initial tenures clamped
to at least 1. The length argument n is kept for fidelity. -/
def DualTabu.new (_n initial_tu initial_tv : Nat) : DualTabu :=
  { expiry_u := fun _ => 0, expiry_v := fun _ => 0, iter := 0
    tu := max initial_tu 1, tv := max initial_tv 1 }

/-- Embeds DualTabu::is_tabu_u: v is tabu for re-adding iff expiry_u[v] > iter. -/
def DualTabu.is_tabu_u (t : DualTabu) (v : Nat) : Bool :=
  decide (t.expiry_u v > t.iter)

/-- Embeds DualTabu::is_tabu_v: v is tabu for removal iff expiry_v[v] > iter. -/
def DualTabu.is_tabu_v (t : DualTabu) (v : Nat) : Bool :=
  decide (t.expiry_v v > t.iter)

/-- Embeds DualTabu::forbid_u: expiry_u[v] = iter + tu. -/
def DualTabu.forbid_u (t : DualTabu) (v : Nat) : DualTabu :=
  { t with expiry_u := fun u => if u = v then t.iter + t.tu else t.expiry_u u }

/-- Embeds DualTabu::forbid_v: expiry_v[v] = iter + tv. -/
def DualTabu.forbid_v (t : DualTabu) (v : Nat) : DualTabu :=
  { t with expiry_v := fun u => if u = v then t.iter + t.tv else t.expiry_v u }

/-- Embeds DualTabu::step: increment iter. -/
def DualTabu.step (t : DualTabu) : DualTabu :=
  { t with iter := t.iter + 1 }

/-- Embeds DualTabu::reset: zero both expiry arrays (tenures and iter kept). -/
def DualTabu.reset (t : DualTabu) : DualTabu :=
  { t with expiry_u := fun _ => 0, expiry_v := fun _ => 0 }

/-- Embeds DualTabu::update_tenures of src/tabu.rs, with the f64 arithmetic
carried out over exact rationals and the f64-to-usize casts clamping
negatives to 0 (Int.toNat). -/
def DualTabu.updateTenures (t : DualTabu) (size_s edges : Nat) (gamma : ℚ)
    (rng : Rng) : DualTabu × Rng :=
  if size_s < 2 then ({ t with tu := 1, tv := 1 }, rng)
  else
    let maxPossibleEdges : Nat := size_s * (size_s - 1) / 2
    let neededEdges : Nat := (⌈gamma * (maxPossibleEdges : ℚ)⌉).toNat
    let l : Nat := min (neededEdges - edges) 10
    let c : Nat := max (size_s / 40) 6
    let ru : Nat × Rng := if c > 1 then rng.genRangeIncl c else (0, rng)
    let tu' : Nat := max (l + ru.1) 1
    let baseV : Nat := (⌊(6 / 10 : ℚ) * (l : ℚ)⌋).toNat
    let c6 : Nat := (⌊(6 / 10 : ℚ) * (c : ℚ)⌋).toNat
    let rv : Nat × Rng := if c6 > 1 then ru.2.genRangeIncl c6 else (0, ru.2)
    let tv' : Nat := max (baseV + rv.1) 1
    ({ t with tu := tu', tv := tv' }, rv.2)

/-- Embeds add_counted of src/freq.rs: perform Solution::add, increment
g[v] (usize saturating_add modelled as Nat succ), then reset the whole
vector to 0 whenever g[v] exceeds the post-mutation size. -/
def addCounted (g : Graph) (s : Solution) (v : Nat) (freq : Nat → Nat) :
    Solution × (Nat → Nat) :=
  let s' := s.add g v
  let f1 : Nat → Nat := fun u => if u = v then freq v + 1 else freq u
  if f1 v > s'.size then (s', fun _ => 0) else (s', f1)

/-- Embeds remove_counted of src/freq.rs: perform Solution::remove,
increment g[v], then reset the whole vector to 0 whenever g[v] exceeds the
post-mutation size. -/
def removeCounted (g : Graph) (s : Solution) (v : Nat) (freq : Nat → Nat) :
    Solution × (Nat → Nat) :=
  let s' := s.remove g v
  let f1 : Nat → Nat := fun u => if u = v then freq v + 1 else freq u
  if f1 v > s'.size then (s', fun _ => 0) else (s', f1)

/-- Largest value of usize; sentinel used by unwrap_or in
calculate_critical_degrees. -/
def USIZE_MAX : Nat := 2 ^ 64 - 1

/-- Parameter record: the fields of struct Params (src/params.rs) consumed
by the embedded fragment (gamma_target as an exact rational).  The solver is
embedded with use_mcts = false, so the MCTS-only fields are omitted. -/
structure ParamsM where
  gamma_target : ℚ
  stagnation_iter : Nat
  max_iter : Nat
  tenure_u : Nat
  tenure_v : Nat
  max_time_seconds : ℚ

/-- Members of S in ascending order (sol_bitset.iter_ones()). -/
def solMembers (g : Graph) (s : Solution) : List Nat :=
  (List.range g.n).filter fun u => s.vertices u

/-- Non-members of S in ascending order ((0..n).filter(!bitset[v])). -/
def solNonMembers (g : Graph) (s : Solution) : List Nat :=
  (List.range g.n).filter fun v => ! s.vertices v

/-- Embeds the min_in half of calculate_critical_degrees (src/neighbour.rs):
minimum of |row(u) ∩ S| over members u with !is_tabu_u(u), with the
usize::MAX sentinel of unwrap_or for the empty case. -/
def minInCode (g : Graph) (s : Solution) (t : DualTabu) : Nat :=
  ((((solMembers g s).filter fun u => ! t.is_tabu_u u).map
    fun u => connCount g s.vertices u).min?).getD USIZE_MAX

/-- Embeds the max_out half of calculate_critical_degrees: maximum of
|row(v) ∩ S| over non-members v with !is_tabu_v(v), with the usize::MIN (0)
sentinel of unwrap_or for the empty case. -/
def maxOutCode (g : Graph) (s : Solution) (t : DualTabu) : Nat :=
  ((((solNonMembers g s).filter fun v => ! t.is_tabu_v v).map
    fun v => connCount g s.vertices v).max?).getD 0

/-- Modelled from the spec (section 4.5), for comparison with minInCode:
min_in = min over members u that are NOT tabu-for-remove (is_tabu_v) of
|row(u) ∩ S|; undefined (none) when no member is eligible. -/
def minInSpec (g : Graph) (s : Solution) (t : DualTabu) : Option Nat :=
  (((solMembers g s).filter fun u => ! t.is_tabu_v u).map
    fun u => connCount g s.vertices u).min?

/-- Modelled from the spec (section 4.5), for comparison with maxOutCode:
max_out = max over non-members v that are NOT tabu-for-add (is_tabu_u) of
|row(v) ∩ S|; undefined (none) when no non-member is eligible. -/
def maxOutSpec (g : Graph) (s : Solution) (t : DualTabu) : Option Nat :=
  (((solNonMembers g s).filter fun v => ! t.is_tabu_u v).map
    fun v => connCount g s.vertices v).max?

/-- Embeds the set_a half of build_critical_sets (src/neighbour.rs):
members u with !is_tabu_u(u) and |row(u) ∩ S| = min_in. -/
def setA (g : Graph) (s : Solution) (t : DualTabu) (min_in : Nat) : List Nat :=
  (solMembers g s).filter fun u =>
    ! t.is_tabu_u u && (connCount g s.vertices u == min_in)

/-- Embeds the set_b half of build_critical_sets: non-members v with
!is_tabu_v(v) and |row(v) ∩ S| = max_out. -/
def setB (g : Graph) (s : Solution) (t : DualTabu) (max_out : Nat) : List Nat :=
  (solNonMembers g s).filter fun v =>
    ! t.is_tabu_v v && (connCount g s.vertices v == max_out)

/-- Modelled from the spec (section 4.5), for comparison with setA: the
critical set A of members that are not tabu-for-remove attaining min_in. -/
def setASpec (g : Graph) (s : Solution) (t : DualTabu) : List Nat :=
  match minInSpec g s t with
  | none => []
  | some m => (solMembers g s).filter fun u =>
      ! t.is_tabu_v u && (connCount g s.vertices u == m)

/-- Modelled from the spec (section 4.5), for comparison with setB: the
critical set B of non-members that are not tabu-for-add attaining max_out. -/
def setBSpec (g : Graph) (s : Solution) (t : DualTabu) : List Nat :=
  match maxOutSpec g s t with
  | none => []
  | some m => (solNonMembers g s).filter fun v =>
      ! t.is_tabu_u v && (connCount g s.vertices v == m)

/-- Tabu test of a candidate pair in improve_once:
is_tabu_u(u) || is_tabu_v(v). -/
def isTabuMove (t : DualTabu) (u v : Nat) : Bool :=
  t.is_tabu_u u || t.is_tabu_v v

/-- The double loop of improve_once enumerating (delta, u, v) over
set_a x set_b in order, with delta = gain - loss - e_uv as isize. -/
def pairScan (g : Graph) (s : Solution) (A B : List Nat) : List (ℤ × Nat × Nat) :=
  A.flatMap fun u => B.map fun v =>
    ((connCount g s.vertices v : ℤ) - (connCount g s.vertices u : ℤ) -
      (if g.adj u v then 1 else 0), u, v)

/-- The (current_edges as isize + delta) as usize reinterpretation of
improve_once, with two's-complement wrapping made explicit. -/
def newEdges (current_edges : Nat) (delta : ℤ) : Nat :=
  (((current_edges : ℤ) + delta) % (2 ^ 64 : ℤ)).toNat

/-- The post-swap density computed inside improve_once's scan. -/
def newRho (k ne : Nat) : ℚ :=
  if k < 2 then 0 else 2 * (ne : ℚ) / ((k * (k - 1) : Nat) : ℚ)

/-- The aspirating_swaps list of improve_once: tabu pairs whose post-swap
density strictly exceeds best_global_rho, in scan order. -/
def aspirList (g : Graph) (s : Solution) (t : DualTabu) (bestRho : ℚ)
    (A B : List Nat) : List (ℤ × Nat × Nat) :=
  (pairScan g s A B).filter fun x =>
    isTabuMove t x.2.1 x.2.2 &&
      decide (newRho s.size (newEdges s.edge_count x.1) > bestRho)

/-- The best_delta_zero_eu_v_swaps list of improve_once: non-tabu pairs with
delta >= 0, e_uv = 0 and delta = max_out - min_in, in scan order. -/
def bestZeroList (g : Graph) (s : Solution) (t : DualTabu)
    (min_in max_out : Nat) (A B : List Nat) : List (ℤ × Nat × Nat) :=
  (pairScan g s A B).filter fun x =>
    ! isTabuMove t x.2.1 x.2.2 && decide (0 ≤ x.1) &&
      (! g.adj x.2.1 x.2.2 && decide (x.1 = (max_out : ℤ) - (min_in : ℤ)))

/-- The other_non_deteriorating_swaps list of improve_once: the remaining
non-tabu pairs with delta >= 0, in scan order. -/
def otherList (g : Graph) (s : Solution) (t : DualTabu)
    (min_in max_out : Nat) (A B : List Nat) : List (ℤ × Nat × Nat) :=
  (pairScan g s A B).filter fun x =>
    ! isTabuMove t x.2.1 x.2.2 && decide (0 ≤ x.1) &&
      ! (! g.adj x.2.1 x.2.2 && decide (x.1 = (max_out : ℤ) - (min_in : ℤ)))

/-- Rust Iterator::max_by_key on the delta component: returns the LAST
element attaining the maximum, none on the empty list. -/
def maxByDeltaLast (xs : List (ℤ × Nat × Nat)) : Option (ℤ × Nat × Nat) :=
  xs.foldl
    (fun acc x =>
      match acc with
      | none => some x
      | some a => if a.1 ≤ x.1 then some x else some a)
    none

/-- The selection cascade of improve_once (priorities 1-3): aspiration by
largest delta, else uniform choice from best_delta_zero_eu_v_swaps, else
uniform choice from other_non_deteriorating_swaps, else none. -/
def chosenSwap (g : Graph) (s : Solution) (t : DualTabu) (bestRho : ℚ)
    (min_in max_out : Nat) (A B : List Nat) (rng : Rng) :
    Option (ℤ × Nat × Nat) × Rng :=
  match maxByDeltaLast (aspirList g s t bestRho A B) with
  | some x => (some x, rng)
  | none =>
    let best0 := bestZeroList g s t min_in max_out A B
    if ! best0.isEmpty then rng.chooseL best0
    else
      let other := otherList g s t min_in max_out A B
      if ! other.isEmpty then rng.chooseL other else (none, rng)

/-- Embeds improve_once of src/neighbour.rs (one intensification attempt):
guards, critical degrees and sets, candidate scan, selection cascade,
counted swap execution with forbid stamps, then step and update_tenures. -/
def improveOnce (g : Graph) (s : Solution) (t : DualTabu) (bestRho : ℚ)
    (freq : Nat → Nat) (p : ParamsM) (rng : Rng) :
    Solution × DualTabu × (Nat → Nat) × Rng × Bool :=
  let k := s.size
  if k = 0 ∨ k = g.n then
    let t1 := t.step
    let tr := t1.updateTenures s.size s.edge_count p.gamma_target rng
    (s, tr.1, freq, tr.2, false)
  else
    let min_in := minInCode g s t
    let max_out := maxOutCode g s t
    if min_in = USIZE_MAX ∨ max_out = 0 then
      let t1 := t.step
      let tr := t1.updateTenures s.size s.edge_count p.gamma_target rng
      (s, tr.1, freq, tr.2, false)
    else
      let A := setA g s t min_in
      let B := setB g s t max_out
      let ch := chosenSwap g s t bestRho min_in max_out A B rng
      match ch.1 with
      | some x =>
        let r1 := removeCounted g s x.2.1 freq
        let r2 := addCounted g r1.1 x.2.2 r1.2
        let t1 := ((t.forbid_u x.2.1).forbid_v x.2.2).step
        let tr := t1.updateTenures r2.1.size r2.1.edge_count p.gamma_target ch.2
        (r2.1, tr.1, r2.2, tr.2, true)
      | none =>
        let t1 := t.step
        let tr := t1.updateTenures s.size s.edge_count p.gamma_target ch.2
        (s, tr.1, freq, tr.2, false)

/-- Concrete instance: path 0-1-2 plus the isolated vertex 3. -/
def gPath4 : Graph :=
  { n := 4, adj := fun u v => decide ((u, v) ∈ [(0, 1), (1, 0), (1, 2), (2, 1)]) }

/-- Concrete instance: the solution 0,1,2 on gPath4. -/
def sPath4 : Solution := applyOps gPath4 [.addOp 0, .addOp 1, .addOp 2]

/-- Concrete instance: tabu state with 0 and 2 tabu-for-remove and 3
tabu-for-add at iter 0. -/
def tPath4 : DualTabu :=
  { expiry_u := fun u => if u = 3 then 5 else 0
    expiry_v := fun u => if u = 0 ∨ u = 2 then 5 else 0
    iter := 0, tu := 1, tv := 1 }

/-- The list that improve_once samples uniformly when no aspirating
candidate exists: best_delta_zero_eu_v_swaps if non-empty, else
other_non_deteriorating_swaps. -/
def swapPool (g : Graph) (s : Solution) (t : DualTabu)
    (min_in max_out : Nat) (A B : List Nat) : List (ℤ × Nat × Nat) :=
  if (bestZeroList g s t min_in max_out A B).isEmpty
  then otherList g s t min_in max_out A B
  else bestZeroList g s t min_in max_out A B

/-- Concrete instance: the solution 0,1 on gPath4. -/
def sPair4 : Solution := applyOps gPath4 [.addOp 0, .addOp 1]

/-- Concrete instance: a fresh tabu state on 4 vertices. -/
def tZero4 : DualTabu := DualTabu.new 4 1 1

/-- Embeds Graph::degree: popcount of row v. -/
def Graph.degree (g : Graph) (v : Nat) : Nat :=
  ((Finset.range g.n).filter fun u => g.adj v u = true).card

/-- Embeds Graph::m: half the total popcount of all rows. -/
def Graph.m (g : Graph) : Nat :=
  (((List.range g.n).map g.degree).sum) / 2

/-- The candidate scan of greedy_random_k (src/construct.rs): fold over
0..n keeping (best_edges, candidates), starting from usize::MIN and an
empty vector, with strict improvement replacing and equality appending. -/
def greedyScan (g : Graph) (sol : Solution) : Nat × List Nat :=
  (List.range g.n).foldl
    (fun acc v =>
      if ! sol.vertices v then
        let edges := connCount g sol.vertices v
        if edges > acc.1 then (edges, [v])
        else if edges = acc.1 then (acc.1, acc.2 ++ [v])
        else acc
      else acc)
    (0, [])

/-- The while-loop of greedy_random_k, driven by fuel (each iteration adds
one vertex or breaks, so fuel k suffices). -/
def greedyFill (g : Graph) (k : Nat) : Nat → Solution → Rng → Solution × Rng
  | 0, sol, rng => (sol, rng)
  | fuel + 1, sol, rng =>
    if sol.size < k then
      let scan := greedyScan g sol
      let ch := rng.chooseL scan.2
      match ch.1 with
      | none => (sol, ch.2)
      | some v => greedyFill g k fuel (sol.add g v) ch.2
    else (sol, rng)

/-- Embeds greedy_random_k of src/construct.rs: assert 0 < k <= n (none =
assertion failure), add one random start vertex when n > 0, then greedily
fill to size k with uniform tie-breaking. -/
def greedyRandomK (g : Graph) (k : Nat) (rng : Rng) : Option (Solution × Rng) :=
  if ¬ (0 < k ∧ k ≤ g.n) then none
  else
    let start :=
      if 0 < g.n then
        let r := rng.genRangeLt g.n
        (Solution.new.add g r.1, r.2)
      else (Solution.new, rng)
    some (greedyFill g k k start.1 start.2)

/-- Embeds heavy_perturbation of src/diversify.rs: remove a uniform member,
build the candidate set below the density-dependent threshold h (with the
minimum-degree fallback), add a uniform candidate, then reset the tabu
expiries and recompute the tenures from the post-perturbation solution.
Returns none on the .expect panic (empty member list). -/
def heavyPerturbation (g : Graph) (sol : Solution) (t : DualTabu)
    (rng : Rng) (p : ParamsM) (freq : Nat → Nat) :
    Option (Solution × DualTabu × (Nat → Nat) × Rng) :=
  let k := sol.size
  if k < 1 then some (sol, t, freq, rng)
  else
    let chu := rng.chooseL (solMembers g sol)
    match chu.1 with
    | none => none
    | some u =>
      let r1 := removeCounted g sol u freq
      let dn : ℚ :=
        if g.n < 2 then 0
        else 2 * (g.m : ℚ) / ((g.n * (g.n - 1) : Nat) : ℚ)
      let h : Nat :=
        if dn ≤ 1 / 2 then (⌊(85 / 100 : ℚ) * p.gamma_target * (k : ℚ)⌋).toNat
        else (⌊p.gamma_target * (k : ℚ)⌋).toNat
      let cands0 := (List.range g.n).filter fun v =>
        ! r1.1.vertices v && decide (connCount g r1.1.vertices v < h)
      let cands :=
        if cands0.isEmpty then
          let minDeg := (((solNonMembers g r1.1).map
            fun v => connCount g r1.1.vertices v).min?).getD 0
          (List.range g.n).filter fun v =>
            ! r1.1.vertices v && (connCount g r1.1.vertices v == minDeg)
        else cands0
      if cands.isEmpty then some (r1.1, t, r1.2, chu.2)
      else
        let chv := chu.2.chooseL cands
        match chv.1 with
        | none => some (r1.1, t, r1.2, chv.2)
        | some v =>
          let r2 := addCounted g r1.1 v r1.2
          let t1 := t.reset
          let tr := t1.updateTenures r2.1.size r2.1.edge_count p.gamma_target chv.2
          some (r2.1, tr.1, r2.2, tr.2)

/-- Embeds the light critical-swap branch of solve_fixed_k
(src/restart.rs, the else-arm of the stagnation diversification): rebuild
the critical sets A and B with the same tabu filters as improve_once, form
T = pairs of A x B with no edge, swap a uniform pair of T (or of A x B when
T is empty) through the counted helpers, and stamp forbid_u/forbid_v.  The
expiry arrays are not reset and the tenures are not recomputed here. -/
def lightCriticalSwap (g : Graph) (cur : Solution) (t : DualTabu)
    (freq : Nat → Nat) (rng : Rng) :
    Solution × DualTabu × (Nat → Nat) × Rng :=
  let min_in := minInCode g cur t
  let max_out := maxOutCode g cur t
  let A := setA g cur t min_in
  let B := setB g cur t max_out
  let T := A.flatMap fun u => (B.filter fun v => ! g.adj u v).map fun v => (u, v)
  let chT := rng.chooseL T
  match chT.1 with
  | some uv =>
    let r1 := removeCounted g cur uv.1 freq
    let r2 := addCounted g r1.1 uv.2 r1.2
    ((r2.1, (t.forbid_u uv.1).forbid_v uv.2, r2.2, chT.2) :
      Solution × DualTabu × (Nat → Nat) × Rng)
  | none =>
    let chA := chT.2.chooseL A
    let chB := chA.2.chooseL B
    match chA.1, chB.1 with
    | some u, some v =>
      let r1 := removeCounted g cur u freq
      let r2 := addCounted g r1.1 v r1.2
      (r2.1, (t.forbid_u u).forbid_v v, r2.2, chB.2)
    | _, _ => (cur, t, freq, chB.2)

/-- Concrete instance: the single edge 0-1 on two vertices. -/
def gEdge2 : Graph :=
  { n := 2, adj := fun u v => decide ((u, v) ∈ [(0, 1), (1, 0)]) }

/-- Concrete instance: the solution containing only vertex 0 on gEdge2. -/
def sSingle2 : Solution := applyOps gEdge2 [.addOp 0]

/-- Running state of the local-search loop of solve_fixed_k
(src/restart.rs): current solution, tabu, frequency memory, best-in-run,
move counter, stagnation counter, random source. -/
structure FKState where
  cur : Solution
  tabu : DualTabu
  freq : Nat → Nat
  best_run : Solution
  total : Nat
  stagnation : Nat
  rng : Rng

/-- Outcome of the local-search loop: early driver return with a feasible
best-in-run, a panic inside a perturbation, or normal loop exit. -/
inductive InnerRes where
  | earlyRet (s : Solution)
  | panic
  | finished (st : FKState)

/-- Outcome of solve_fixed_k: a panic, fuel exhaustion of the outer restart
loop (the Rust loop can run forever when stagnation_iter = 0), or a result. -/
inductive FKRes where
  | panic
  | spin
  | out (s : Solution)

/-- Outcome of the restart-seed construction: the early `return best_global`
taken when the graph is empty, or the constructed seed solution. -/
inductive ConstructRes where
  | retBG
  | built (cur : Solution) (freq : Nat → Nat) (rng : Rng)

/-- The candidate scan of the greedy completion in solve_fixed_k's restart
construction: fold over 0..n keeping (best_gain, best_v_cand), starting
from isize::MIN and an empty vector. -/
def seedScan (g : Graph) (s : Solution) : ℤ × List Nat :=
  (List.range g.n).foldl
    (fun acc v =>
      if ! s.vertices v then
        let gain : ℤ := (connCount g s.vertices v : ℤ)
        if gain > acc.1 then (gain, [v])
        else if gain = acc.1 then (acc.1, acc.2 ++ [v])
        else acc
      else acc)
    (-(2 ^ 63), [])

/-- The while-loop of the restart-seed construction (src/restart.rs):
greedy completion with secondary tie-break on the frequency memory, all
adds counted; driven by fuel (each iteration adds one vertex or breaks). -/
def seedFill (g : Graph) (k : Nat) :
    Nat → Solution → (Nat → Nat) → Rng → Solution × (Nat → Nat) × Rng
  | 0, s, freq, rng => (s, freq, rng)
  | fuel + 1, s, freq, rng =>
    if s.size < k then
      let scan := seedScan g s
      if scan.2.isEmpty then (s, freq, rng)
      else
        let minFreq := ((scan.2.map freq).min?).getD 0
        let filtered := scan.2.filter fun v => freq v == minFreq
        let ch := rng.chooseL filtered
        match ch.1 with
        | some v =>
          let r := addCounted g s v freq
          seedFill g k fuel r.1 r.2 ch.2
        | none => (s, freq, rng)
    else (s, freq, rng)

/-- The restart-seed construction of solve_fixed_k (the else-branch of step
1): seed with a uniform vertex of minimal frequency (falling back to
`return best_global` when n = 0), then greedy completion via seedFill. -/
def restartConstruct (g : Graph) (k : Nat) (freq : Nat → Nat) (rng : Rng) :
    ConstructRes :=
  let min_f := (((List.range g.n).map freq).min?).getD 0
  let seedCands := (List.range g.n).filter fun v => freq v == min_f
  let ch := rng.chooseL seedCands
  match ch.1 with
  | some seed =>
    let r := addCounted g Solution.new seed freq
    let fill := seedFill g k k r.1 r.2 ch.2
    .built fill.1 fill.2.1 fill.2.2
  | none =>
    if g.n = 0 then .retBG
    else
      let rv := ch.2.genRangeLt g.n
      let r := addCounted g Solution.new rv.1 freq
      let fill := seedFill g k k r.1 r.2 rv.2
      .built fill.1 fill.2.1 fill.2.2

/-- The local-search loop of solve_fixed_k (src/restart.rs, step 3) with
use_mcts = false: improve_once, counter updates, best-in-run tracking,
early feasibility exit, and the stagnation branch choosing heavy
perturbation or the light critical-swap.  Fuel equals max_iter - total
(each iteration increments total, so exhaustion coincides with the loop
condition turning false). -/
def innerLoop (g : Graph) (k : Nat) (p : ParamsM) (needed : Nat)
    (bestRho : ℚ) : Nat → FKState → InnerRes
  | 0, st => .finished st
  | fuel + 1, st =>
    if st.stagnation < p.stagnation_iter ∧ st.total < p.max_iter then
      let r := improveOnce g st.cur st.tabu bestRho st.freq p st.rng
      let cur1 := r.1
      let tabu1 := r.2.1
      let freq1 := r.2.2.1
      let rng1 := r.2.2.2.1
      let moved := r.2.2.2.2
      let total1 := st.total + 1
      let stag1 := if moved then 0 else st.stagnation + 1
      let best1 := if cur1.density > st.best_run.density then cur1 else st.best_run
      if best1.isGammaFeasible p.gamma_target then .earlyRet best1
      else if p.stagnation_iter ≤ stag1 then
        let i := min (needed - cur1.edge_count) 10
        let pH : ℚ := min (((i : ℚ) + 2) / (k : ℚ)) (1 / 10)
        let gb := rng1.genBool pH
        if gb.1 then
          match heavyPerturbation g cur1 tabu1 gb.2 p freq1 with
          | none => .panic
          | some res =>
            innerLoop g k p needed bestRho fuel
              { cur := res.1, tabu := res.2.1, freq := res.2.2.1
                best_run := best1, total := total1, stagnation := 0
                rng := res.2.2.2 }
        else
          let lr := lightCriticalSwap g cur1 tabu1 freq1 gb.2
          innerLoop g k p needed bestRho fuel
            { cur := lr.1, tabu := lr.2.1, freq := lr.2.2.1
              best_run := best1, total := total1, stagnation := 0
              rng := lr.2.2.2 }
      else
        innerLoop g k p needed bestRho fuel
          { cur := cur1, tabu := tabu1, freq := freq1
            best_run := best1, total := total1, stagnation := stag1
            rng := rng1 }
    else .finished st

/-- The outer restart loop of solve_fixed_k (src/restart.rs): construct a
seed (greedy-random on the first restart, frequency-guided afterwards),
initialise the dual tabu, run the local search, and promote the best-in-run
to best-global on strict density improvement.  Fuel bounds the number of
restarts (spin on exhaustion). -/
def outerLoop (g : Graph) (k : Nat) (p : ParamsM) (needed : Nat) :
    Nat → (Nat → Nat) → Solution → ℚ → Nat → Rng → FKRes
  | 0, _, _, _, _, _ => .spin
  | fuel + 1, freq, bg, brho, total, rng =>
    if total < p.max_iter then
      let constructed : FKRes ⊕ (Solution × (Nat → Nat) × Rng) :=
        if bg.size = 0 then
          match greedyRandomK g k rng with
          | none => Sum.inl .panic
          | some sr => Sum.inr (sr.1, freq, sr.2)
        else
          match restartConstruct g k freq rng with
          | .retBG => Sum.inl (.out bg)
          | .built cur f r => Sum.inr (cur, f, r)
      match constructed with
      | Sum.inl res => res
      | Sum.inr cfr =>
        let cur := cfr.1
        let tabu0 := DualTabu.new g.n p.tenure_u p.tenure_v
        let tr := tabu0.updateTenures cur.size cur.edge_count p.gamma_target cfr.2.2
        match innerLoop g k p needed brho (p.max_iter - total)
            { cur := cur, tabu := tr.1, freq := cfr.2.1, best_run := cur
              total := total, stagnation := 0, rng := tr.2 } with
        | .panic => .panic
        | .earlyRet s => .out s
        | .finished st =>
          if st.best_run.density > bg.density then
            outerLoop g k p needed fuel st.freq st.best_run st.best_run.density
              st.total st.rng
          else
            outerLoop g k p needed fuel st.freq bg brho st.total st.rng
    else .out bg

/-- Embeds solve_fixed_k of src/restart.rs (with use_mcts = false): the
degenerate-instance guard comparing C(k,2) against ceil(gamma C(k,2)),
then the multi-start loop. -/
def solveFixedK (g : Graph) (k : Nat) (rng : Rng) (p : ParamsM)
    (fuel : Nat) : FKRes :=
  let maxPossibleEdges := if k > 1 then k * (k - 1) / 2 else 0
  let neededEdges := (⌈p.gamma_target * (maxPossibleEdges : ℚ)⌉).toNat
  if maxPossibleEdges < neededEdges then .out Solution.new
  else outerLoop g k p neededEdges fuel (fun _ => 0) Solution.new 0 0 rng

/-- Embeds compute_degree_prefix of src/maxk.rs: degrees sorted descending
(any correct descending sort yields the same list of naturals), then the
cumulative sums starting with 0 (entry i is the sum of the i largest degrees). -/
def degreeCum (g : Graph) : List Nat :=
  let degrees := (List.range g.n).map g.degree
  let sorted := degrees.insertionSort fun a b => b ≤ a
  (List.range (sorted.length + 1)).map fun i => (sorted.take i).sum

/-- Embeds ub_edges of src/maxk.rs: the k-th entry of the degree sums, / 2. -/
def ubEdges (pre : List Nat) (k : Nat) : Nat :=
  (pre.getD k 0) / 2

/-- The promotion test of solve_maxk (and of the runs loop of lib.rs):
size descending with density as tie-break. -/
def beatsSol (a b : Solution) : Prop :=
  a.size > b.size ∨ (a.size = b.size ∧ a.density > b.density)

instance (a b : Solution) : Decidable (beatsSol a b) := by
  unfold beatsSol
  infer_instance

/-- The k-loop of solve_maxk (src/maxk.rs) for k = 3..=n, with the
wall-clock checks modelled by an abstract verdict stream (elapsed), the
fixed-k driver with timeout flag (absent from restart.rs in this tree)
supplied as an oracle, and fuel keeping the recursion structural.  The
required-edge count is ceil(gamma k (k-1) / 2) over exact rationals. -/
def maxkLoop (g : Graph) (fixedK : Nat → Solution × Bool) (p : ParamsM)
    (elapsed : Nat → Bool) (pre : List Nat) :
    Nat → Nat → Solution → Bool → Solution × Bool
  | 0, _, best, timedOut => (best, timedOut)
  | fuel + 1, k, best, timedOut =>
    if g.n < k then (best, timedOut)
    else if decide (p.max_time_seconds > 0) && elapsed k then (best, true)
    else
      let ub := ubEdges pre k
      let required := (⌈p.gamma_target * ((k * (k - 1) : Nat) : ℚ) / 2⌉).toNat
      if ub < required then (best, timedOut)
      else
        let rk := fixedK k
        let timedOut1 := timedOut || rk.2
        if rk.1.isGammaFeasible p.gamma_target then
          let best1 := if beatsSol rk.1 best then rk.1 else best
          maxkLoop g fixedK p elapsed pre fuel (k + 1) best1 timedOut1
        else (best, timedOut1)

/-- Embeds solve_maxk of src/maxk.rs.  The tuple-returning solve_fixed_k it
calls does not exist in this tree (restart.rs returns no timeout flag), so
that driver is supplied as an oracle fixedK; wall-clock readings are an
abstract verdict stream. -/
def solveMaxk (g : Graph) (fixedK : Nat → Solution × Bool) (p : ParamsM)
    (elapsed : Nat → Bool) : Solution × Bool :=
  let pre := degreeCum g
  if g.n < 2 then (Solution.new, false)
  else if decide (p.max_time_seconds > 0) && elapsed 2 then (Solution.new, true)
  else
    let r2 := fixedK 2
    if ! r2.1.isGammaFeasible p.gamma_target then (Solution.new, r2.2)
    else maxkLoop g fixedK p elapsed pre g.n 3 r2.1 r2.2

/-- Concrete instance: the empty graph on zero vertices. -/
def gEmpty0 : Graph := { n := 0, adj := fun _ _ => false }

/-- Concrete instance: the edgeless graph on three vertices. -/
def gEmpty3 : Graph := { n := 3, adj := fun _ _ => false }

/-- Concrete instance: the size-2 solution 0,1 on gEmpty3 (what
greedy_random_k builds on the edgeless graph, and what solve_fixed_k
returns at k = 2 through the feasibility early-exit when gamma is below
the 1e-9 tolerance). -/
def sTwo3 : Solution :=
  { vertices := fun u => decide (u < 2), edge_count := 0, size := 2 }

/-- Concrete instance: parameters with gamma 1/2 and a single move. -/
def pHalf : ParamsM :=
  { gamma_target := 1 / 2, stagnation_iter := 10, max_iter := 1
    tenure_u := 1, tenure_v := 1, max_time_seconds := 0 }

/-- Concrete instance: parameters with a gamma threshold below the 1e-9
feasibility tolerance. -/
def pTiny : ParamsM :=
  { gamma_target := 1 / 10 ^ 10, stagnation_iter := 10, max_iter := 100
    tenure_u := 1, tenure_v := 1, max_time_seconds := 0 }

/-- Concrete instance: a fresh tabu state on 2 vertices with tenures 3. -/
def tNew2 : DualTabu := DualTabu.new 2 3 3

/-- Concrete instance: the all-zero random tape. -/
def rngZero : Rng := { tape := fun _ => 0, pos := 0 }

/-- Embeds Graph::with_vertices: n isolated vertices. -/
def Graph.with_vertices (n : Nat) : Graph :=
  { n := n, adj := fun _ _ => false }

/-- Embeds Graph::add_edge: assert u, v in range and u != v (none =
assertion failure), then set both directions. -/
def Graph.add_edge (g : Graph) (u v : Nat) : Option Graph :=
  if u < g.n ∧ v < g.n ∧ u ≠ v then
    some { g with adj := fun x y =>
      if (x = u ∧ y = v) ∨ (x = v ∧ y = u) then true else g.adj x y }
  else none

/-- Embeds Graph::from_edge_list: start from with_vertices and add each
in-range edge through add_edge (whose self-loop assertion can panic);
out-of-range pairs are skipped. -/
def Graph.from_edge_list (n : Nat) (edges : List (Nat × Nat)) : Option Graph :=
  edges.foldl
    (fun acc uv =>
      match acc with
      | none => none
      | some g => if uv.1 < n ∧ uv.2 < n then g.add_edge uv.1 uv.2 else some g)
    (some (Graph.with_vertices n))

/-- Result of parse_dimacs: an io parse error, a panic inside
from_edge_list, or a parsed graph. -/
inductive ParseRes where
  | parseError
  | panicked
  | ok (g : Graph)

/-- True exactly on a successfully parsed graph. -/
def ParseRes.isOk : ParseRes → Bool
  | .ok _ => true
  | _ => false

/-- True exactly on the io parse error outcome. -/
def ParseRes.isParseError : ParseRes → Bool
  | .parseError => true
  | _ => false

/-- The parsed graph (the empty graph on the failure outcomes). -/
def ParseRes.theGraph : ParseRes → Graph
  | .ok g => g
  | _ => Graph.with_vertices 0

/-- Rust str::trim on a line modelled as a character list. -/
def trimC (l : List Char) : List Char :=
  ((l.dropWhile fun c => c.isWhitespace).reverse.dropWhile
    fun c => c.isWhitespace).reverse

/-- Rust split_whitespace: split on whitespace and drop empty tokens. -/
def tokenize (l : List Char) : List (List Char) :=
  (l.splitOnP fun c => c.isWhitespace).filter fun t => ! t.isEmpty

/-- Rust usize::from_str on a token: an optional leading plus sign, then
one or more digits. -/
def parseNatC (t : List Char) : Option Nat :=
  let t' := if t.headD ' ' = '+' then t.tail else t
  if t'.isEmpty then none
  else if t'.all fun c => c.isDigit then
    some (t'.foldl (fun a c => a * 10 + (c.toNat - 48)) 0)
  else none

/-- The line loop of Graph::parse_dimacs (src/graph.rs) over character-list
lines with state (n, edges, header_found): comments and blank lines are
skipped, a problem line is recognised only with tag edge (any other p-line
falls to the catch-all arm and is ignored), edge lines check the header,
numeric parses and 1-based bounds, and the end of input builds the graph
through from_edge_list. -/
def parseDimacsGo : List (List Char) → Nat → List (Nat × Nat) → Bool → ParseRes
  | [], n, edges, _ =>
    match Graph.from_edge_list n edges with
    | none => .panicked
    | some g => .ok g
  | line :: rest, n, edges, header =>
    let l := trimC line
    if l.isEmpty || decide (l.headD ' ' = 'c') then parseDimacsGo rest n edges header
    else
      let parts := tokenize l
      match parts with
      | [] => parseDimacsGo rest n edges header
      | p0 :: _ =>
        if p0 = ['p'] ∧ 4 ≤ parts.length ∧
            parts.getD 1 [] = ['e', 'd', 'g', 'e'] then
          match parseNatC (parts.getD 2 []), parseNatC (parts.getD 3 []) with
          | some n', some _ => parseDimacsGo rest n' edges true
          | _, _ => .parseError
        else if p0 = ['e'] ∧ 3 ≤ parts.length then
          if ! header then .parseError
          else
            match parseNatC (parts.getD 1 []), parseNatC (parts.getD 2 []) with
            | some u, some v =>
              if 0 < u ∧ 0 < v ∧ u ≤ n ∧ v ≤ n then
                parseDimacsGo rest n (edges ++ [(u - 1, v - 1)]) header
              else .parseError
            | _, _ => .parseError
        else parseDimacsGo rest n edges header

/-- Embeds Graph::parse_dimacs over a list of input lines. -/
def parseDimacs (lines : List (List Char)) : ParseRes :=
  parseDimacsGo lines 0 [] false

/-! Theorems. -/

theorem memberCount_update_true (n : Nat) (mem : Nat → Bool) (v : Nat)
    (hv : v < n) (hmem : mem v = false) :
    memberCount n (fun u => if u = v then true else mem u) = memberCount n mem + 1 := by
  classical
  unfold memberCount
  have hins :
      ((Finset.range n).filter fun u => (if u = v then true else mem u) = true) =
        insert v ((Finset.range n).filter fun u => mem u = true) := by
    ext u
    by_cases huv : u = v
    · subst huv
      simp [Finset.mem_filter, Finset.mem_range, hv]
    · simp [Finset.mem_filter, Finset.mem_range, huv, Finset.mem_insert]
  rw [hins, Finset.card_insert_of_not_mem]
  simp [Finset.mem_filter, hmem]

theorem memberCount_update_false (n : Nat) (mem : Nat → Bool) (v : Nat)
    (hv : v < n) (hmem : mem v = true) :
    memberCount n mem = memberCount n (fun u => if u = v then false else mem u) + 1 := by
  classical
  have h := memberCount_update_true n (fun u => if u = v then false else mem u) v hv (by simp)
  have hfun : (fun u => if u = v then true else if u = v then false else mem u) = mem := by
    funext u
    by_cases huv : u = v
    · simp [huv, hmem]
    · simp [huv]
  rw [hfun] at h
  exact h

theorem connCount_erase (g : Graph) (hg : g.Wf) (mem : Nat → Bool) (v : Nat)
    (hv : v < g.n) :
    connCount g mem v = connCount g (fun u => if u = v then false else mem u) v := by
  classical
  unfold connCount
  congr 1
  ext u
  by_cases huv : u = v
  · subst huv
    simp [Finset.mem_filter, hg.2 u (by exact hv)]
  · simp [Finset.mem_filter, huv]

theorem pairCount_insert (g : Graph) (hg : g.Wf) (mem : Nat → Bool) (v : Nat)
    (hv : v < g.n) (hmem : mem v = false) :
    pairCount g (fun u => if u = v then true else mem u) =
      pairCount g mem + connCount g mem v := by
  classical
  unfold pairCount connCount
  set n := g.n with hn
  set mem' : Nat → Bool := fun u => if u = v then true else mem u with hmem'
  set S := (Finset.range n) ×ˢ (Finset.range n) with hS
  set P' : Nat × Nat → Prop := fun p =>
    p.1 < p.2 ∧ mem' p.1 = true ∧ mem' p.2 = true ∧ g.adj p.1 p.2 = true with hP'
  set Q : Nat × Nat → Prop := fun p => p.1 = v ∨ p.2 = v with hQ
  have hsplit :
      (S.filter P').card =
        ((S.filter P').filter Q).card + ((S.filter P').filter fun p => ¬ Q p).card := by
    exact (Finset.filter_card_add_filter_neg_card_eq_card (s := S.filter P') Q).symm
  have hold :
      ((S.filter P').filter fun p => ¬ Q p) =
        S.filter fun p =>
          p.1 < p.2 ∧ mem p.1 = true ∧ mem p.2 = true ∧ g.adj p.1 p.2 = true := by
    ext p
    simp only [Finset.mem_filter, hP', hQ, hmem']
    constructor
    · rintro ⟨⟨hpS, hlt, h1, h2, hadj⟩, hq⟩
      push_neg at hq
      refine ⟨hpS, hlt, ?_, ?_, hadj⟩
      · simpa [hq.1] using h1
      · simpa [hq.2] using h2
    · rintro ⟨hpS, hlt, h1, h2, hadj⟩
      have h1v : p.1 ≠ v := by
        intro h; rw [h] at h1; simp [hmem] at h1
      have h2v : p.2 ≠ v := by
        intro h; rw [h] at h2; simp [hmem] at h2
      refine ⟨⟨hpS, hlt, ?_, ?_, hadj⟩, ?_⟩
      · simpa [h1v] using h1
      · simpa [h2v] using h2
      · push_neg
        exact ⟨h1v, h2v⟩
  have hnew :
      ((S.filter P').filter Q) =
        Finset.image (fun u => if u < v then (u, v) else (v, u))
          ((Finset.range n).filter fun u => g.adj v u = true ∧ mem u = true) := by
    ext ⟨p1, p2⟩
    simp only [Finset.mem_filter, Finset.mem_image, hP', hQ, hS, Finset.mem_product,
      Finset.mem_range, hmem']
    constructor
    · rintro ⟨⟨⟨hp1, hp2⟩, hlt, h1, h2, hadj⟩, hq⟩
      rcases hq with hq | hq
      · -- p1 = v, so p2 is the member neighbour and v < p2
        subst hq
        refine ⟨p2, ⟨hp2, hadj, ?_⟩, ?_⟩
        · have hne : p2 ≠ p1 := by intro h; rw [h] at hlt; exact lt_irrefl p1 hlt
          simpa [hne] using h2
        · have hnotlt : ¬ p2 < p1 := fun h => (lt_asymm hlt) h
          simp [if_neg hnotlt]
      · -- p2 = v, so p1 is the member neighbour and p1 < v
        subst hq
        refine ⟨p1, ⟨hp1, ?_, ?_⟩, ?_⟩
        · rw [hg.1 p2 hv p1 hp1]; exact hadj
        · have hne : p1 ≠ p2 := by intro h; rw [h] at hlt; exact lt_irrefl p2 hlt
          simpa [hne] using h1
        · simp [if_pos hlt]
    · rintro ⟨u, ⟨hu, hadj, humem⟩, hp⟩
      have huv : u ≠ v := by
        intro h; rw [h] at humem; simp [humem] at hmem
      by_cases hult : u < v
      · rw [if_pos hult] at hp
        obtain ⟨hp1, hp2⟩ := Prod.mk.injEq .. ▸ hp
        subst hp1; subst hp2
        refine ⟨⟨⟨hu, hv⟩, hult, by simp [huv, humem], by simp, ?_⟩, Or.inr rfl⟩
        rw [hg.1 u hu v hv]; exact hadj
      · rw [if_neg hult] at hp
        obtain ⟨hp1, hp2⟩ := Prod.mk.injEq .. ▸ hp
        subst hp1; subst hp2
        have hvu : v < u := lt_of_le_of_ne (Nat.le_of_not_lt hult) (Ne.symm huv)
        exact ⟨⟨⟨hv, hu⟩, hvu, by simp, by simp [huv, humem], hadj⟩, Or.inl rfl⟩
  have hinj : Set.InjOn (fun u => if u < v then (u, v) else (v, u))
      ↑((Finset.range n).filter fun u => g.adj v u = true ∧ mem u = true) := by
    intro a _ b _ hab
    by_cases ha : a < v
    · by_cases hb : b < v
      · simp only [if_pos ha, if_pos hb, Prod.mk.injEq] at hab
        exact hab.1
      · simp only [if_pos ha, if_neg hb, Prod.mk.injEq] at hab
        exact absurd hab.1 (by rintro rfl; exact hb (hab.2 ▸ ha))
    · by_cases hb : b < v
      · simp only [if_neg ha, if_pos hb, Prod.mk.injEq] at hab
        exact absurd hab.2 (by rintro rfl; exact ha (hab.1 ▸ hb))
      · simp only [if_neg ha, if_neg hb, Prod.mk.injEq] at hab
        exact hab.2
  rw [hsplit, hold, hnew, Finset.card_image_of_injOn hinj]
  ring

theorem inv_new (g : Graph) : Inv g Solution.new := by
  refine ⟨fun u h => by simp [Solution.new] at h, ?_, ?_⟩
  · simp [Solution.new, memberCount]
  · simp [Solution.new, pairCount]

theorem inv_add (g : Graph) (hg : g.Wf) (s : Solution) (v : Nat)
    (hv : v < g.n) (hs : Inv g s) : Inv g (s.add g v) := by
  by_cases hmem : s.vertices v = true
  · simpa [Solution.add, hmem] using hs
  · have hmem' : s.vertices v = false := by
      cases h : s.vertices v
      · rfl
      · exact absurd h hmem
    obtain ⟨hsupp, hsize, hedge⟩ := hs
    refine ⟨?_, ?_, ?_⟩
    · intro u hu
      simp only [Solution.add, hmem', Bool.false_eq_true, if_false] at hu
      by_cases huv : u = v
      · simpa [huv] using hv
      · exact hsupp u (by simpa [huv] using hu)
    · simp only [Solution.add, hmem', Bool.false_eq_true, if_false]
      rw [hsize, memberCount_update_true g.n s.vertices v hv hmem']
    · simp only [Solution.add, hmem', Bool.false_eq_true, if_false]
      rw [hedge, pairCount_insert g hg s.vertices v hv hmem']

theorem inv_remove (g : Graph) (hg : g.Wf) (s : Solution) (v : Nat)
    (hv : v < g.n) (hs : Inv g s) : Inv g (s.remove g v) := by
  by_cases hmem : s.vertices v = true
  · obtain ⟨hsupp, hsize, hedge⟩ := hs
    have hmemne : ¬ s.vertices v = false := by simp [hmem]
    set mem' : Nat → Bool := fun u => if u = v then false else s.vertices u with hmem'
    have hins : (fun u => if u = v then true else mem' u) = s.vertices := by
      funext u
      by_cases huv : u = v
      · simp [huv, hmem, hmem']
      · simp [huv, hmem']
    have hpc : pairCount g s.vertices = pairCount g mem' + connCount g mem' v := by
      have := pairCount_insert g hg mem' v hv (by simp [hmem'])
      rw [hins] at this
      exact this
    have hcc : connCount g s.vertices v = connCount g mem' v :=
      connCount_erase g hg s.vertices v hv
    refine ⟨?_, ?_, ?_⟩
    · intro u hu
      simp only [Solution.remove, hmemne, if_false] at hu
      by_cases huv : u = v
      · simp [hmem', huv] at hu
      · exact hsupp u (by simpa [hmem', huv] using hu)
    · simp only [Solution.remove, hmemne, if_false]
      rw [hsize, memberCount_update_false g.n s.vertices v hv hmem]
      simp [hmem']
    · simp only [Solution.remove, hmemne, if_false]
      rw [hedge, hcc, hpc]
      simp [hmem']
  · have hmem' : s.vertices v = false := by
      cases h : s.vertices v
      · rfl
      · exact absurd h hmem
    simpa [Solution.remove, hmem'] using hs

theorem inv_applyOps (g : Graph) (hg : g.Wf) (ops : List SolOp)
    (hops : ∀ op ∈ ops, SolOp.vertex op < g.n) : Inv g (applyOps g ops) := by
  suffices h : ∀ (l : List SolOp) (s : Solution), (∀ op ∈ l, SolOp.vertex op < g.n) →
      Inv g s → Inv g (l.foldl (fun s op => op.apply g s) s) by
    exact h ops Solution.new hops (inv_new g)
  intro l
  induction l with
  | nil => intro s _ hs; simpa using hs
  | cons op tl ih =>
    intro s hl hs
    have hop : SolOp.vertex op < g.n := hl op (List.mem_cons_self op tl)
    have htl : ∀ o ∈ tl, SolOp.vertex o < g.n := fun o ho => hl o (List.mem_cons_of_mem op ho)
    simp only [List.foldl_cons]
    refine ih (op.apply g s) htl ?_
    cases op with
    | addOp v => exact inv_add g hg s v hop hs
    | rmOp v => exact inv_remove g hg s v hop hs

/-- C1: for every well-formed Graph and every sequence of Solution::add and
Solution::remove calls starting from Solution::new, the cached size equals
the popcount of the membership bit-vector, the cached edge_count equals the
number of unordered pairs of members joined by an edge, and density()
returns 0 when the size is below 2 and 2*edge_count/(size*(size-1))
otherwise. -/
theorem c1_solution_invariants (g : Graph) (hg : g.Wf) (ops : List SolOp)
    (hops : ∀ op ∈ ops, SolOp.vertex op < g.n) :
    (applyOps g ops).size = memberCount g.n (applyOps g ops).vertices ∧
    (applyOps g ops).edge_count = pairCount g (applyOps g ops).vertices ∧
    (applyOps g ops).density =
      (if memberCount g.n (applyOps g ops).vertices < 2 then (0 : ℚ)
       else 2 * (pairCount g (applyOps g ops).vertices : ℚ) /
         ((memberCount g.n (applyOps g ops).vertices : ℚ) *
          ((memberCount g.n (applyOps g ops).vertices : ℚ) - 1))) := by
  obtain ⟨hsupp, hsize, hedge⟩ := inv_applyOps g hg ops hops
  refine ⟨hsize, hedge, ?_⟩
  rw [Solution.density, hsize, hedge]

/-- Witness for C1 on the triangle graph with the call sequence
add 0, add 1, add 2, remove 1. -/
theorem c1_solution_invariants_witness :
    (let g : Graph :=
      { n := 3, adj := fun u v => decide ((u, v) ∈
          [(0, 1), (1, 0), (1, 2), (2, 1), (0, 2), (2, 0)]) }
     let ops : List SolOp := [.addOp 0, .addOp 1, .addOp 2, .rmOp 1]
     g.Wf ∧ (∀ op ∈ ops, SolOp.vertex op < g.n) ∧
       (applyOps g ops).size = memberCount g.n (applyOps g ops).vertices ∧
       (applyOps g ops).edge_count = pairCount g (applyOps g ops).vertices) := by
  refine ⟨by unfold Graph.Wf; decide, by decide, ?_⟩
  have h := c1_solution_invariants
    { n := 3, adj := fun u v => decide ((u, v) ∈
        [(0, 1), (1, 0), (1, 2), (2, 1), (0, 2), (2, 0)]) }
    (by unfold Graph.Wf; decide) [.addOp 0, .addOp 1, .addOp 2, .rmOp 1] (by decide)
  exact ⟨h.1, h.2.1⟩

/-- C8: update_tenures sets T_u = max(1, L + r) with r drawn from the
inclusive range [0, c] and T_v = max(1, floor(0.6 L) + r2) with r2 drawn
from [0, floor(0.6 c)], where needed = ceil(gamma |S| (|S|-1) / 2),
L = min(max(0, needed - |E(S)|), 10) and c = max(floor(|S|/40), 6); when
|S| < 2 both tenures become exactly 1.  The draws are the next two tape
cells reduced into the inclusive ranges, and every pair of values in those
ranges is attained by some tape. -/
theorem c8_update_tenures (t : DualTabu) (size_s edges : Nat) (gamma : ℚ) :
    (∀ rng : Rng, size_s < 2 →
      ((t.updateTenures size_s edges gamma rng).1.tu = 1 ∧
       (t.updateTenures size_s edges gamma rng).1.tv = 1)) ∧
    (∀ rng : Rng, 2 ≤ size_s →
      ∃ r r2 : Nat,
        r ≤ max (size_s / 40) 6 ∧
        r2 ≤ (⌊(6 / 10 : ℚ) * ((max (size_s / 40) 6 : Nat) : ℚ)⌋).toNat ∧
        (t.updateTenures size_s edges gamma rng).1.tu =
          max 1 (min ((⌈gamma * ((size_s * (size_s - 1) / 2 : Nat) : ℚ)⌉).toNat - edges) 10 + r) ∧
        (t.updateTenures size_s edges gamma rng).1.tv =
          max 1 ((⌊(6 / 10 : ℚ) *
            ((min ((⌈gamma * ((size_s * (size_s - 1) / 2 : Nat) : ℚ)⌉).toNat - edges) 10 : Nat) : ℚ)⌋).toNat + r2)) ∧
    (2 ≤ size_s → ∀ x y : Nat, x ≤ max (size_s / 40) 6 →
      y ≤ (⌊(6 / 10 : ℚ) * ((max (size_s / 40) 6 : Nat) : ℚ)⌋).toNat →
      ∃ rng : Rng,
        (t.updateTenures size_s edges gamma rng).1.tu =
          max 1 (min ((⌈gamma * ((size_s * (size_s - 1) / 2 : Nat) : ℚ)⌉).toNat - edges) 10 + x) ∧
        (t.updateTenures size_s edges gamma rng).1.tv =
          max 1 ((⌊(6 / 10 : ℚ) *
            ((min ((⌈gamma * ((size_s * (size_s - 1) / 2 : Nat) : ℚ)⌉).toNat - edges) 10 : Nat) : ℚ)⌋).toNat + y)) := by
  have hc : max (size_s / 40) 6 > 1 := lt_of_lt_of_le (by norm_num) (le_max_right _ 6)
  have hc6base : (3 : Int) ≤ ⌊(6 / 10 : ℚ) * ((max (size_s / 40) 6 : Nat) : ℚ)⌋ := by
    have h6 : (6 : ℚ) ≤ ((max (size_s / 40) 6 : Nat) : ℚ) := by
      exact_mod_cast le_max_right (size_s / 40) 6
    have : (18 / 5 : ℚ) ≤ (6 / 10 : ℚ) * ((max (size_s / 40) 6 : Nat) : ℚ) := by
      nlinarith
    calc (3 : Int) = ⌊(18 / 5 : ℚ)⌋ := by norm_num
    _ ≤ ⌊(6 / 10 : ℚ) * ((max (size_s / 40) 6 : Nat) : ℚ)⌋ := Int.floor_le_floor this
  have hc6 : (⌊(6 / 10 : ℚ) * ((max (size_s / 40) 6 : Nat) : ℚ)⌋).toNat > 1 := by
    omega
  refine ⟨?_, ?_, ?_⟩
  · intro rng hlt
    simp [DualTabu.updateTenures, hlt]
  · intro rng h2
    have hlt : ¬ size_s < 2 := not_lt.mpr h2
    refine ⟨rng.tape rng.pos % (max (size_s / 40) 6 + 1),
      rng.tape (rng.pos + 1) % ((⌊(6 / 10 : ℚ) * ((max (size_s / 40) 6 : Nat) : ℚ)⌋).toNat + 1),
      ?_, ?_, ?_, ?_⟩
    · exact Nat.lt_succ_iff.mp (Nat.mod_lt _ (Nat.succ_pos _))
    · exact Nat.lt_succ_iff.mp (Nat.mod_lt _ (Nat.succ_pos _))
    · simp only [DualTabu.updateTenures, hlt, if_false, if_pos hc, if_pos hc6,
        Rng.genRangeIncl]
      exact Nat.max_comm _ 1 ▸ rfl
    · simp only [DualTabu.updateTenures, hlt, if_false, if_pos hc, if_pos hc6,
        Rng.genRangeIncl]
      exact Nat.max_comm _ 1 ▸ rfl
  · intro h2 x y hx hy
    have hlt : ¬ size_s < 2 := not_lt.mpr h2
    refine ⟨{ tape := fun i => if i = 0 then x else y, pos := 0 }, ?_, ?_⟩
    · simp only [DualTabu.updateTenures, hlt, if_false, if_pos hc, if_pos hc6,
        Rng.genRangeIncl, reduceIte]
      rw [Nat.mod_eq_of_lt (Nat.lt_succ_of_le hx)]
      exact Nat.max_comm _ 1 ▸ rfl
    · simp only [DualTabu.updateTenures, hlt, if_false, if_pos hc, if_pos hc6,
        Rng.genRangeIncl, reduceIte]
      have hid : (if (0 + 1 : Nat) = 0 then x else y) = y := by norm_num
      rw [hid, Nat.mod_eq_of_lt (Nat.lt_succ_of_le hy)]
      exact Nat.max_comm _ 1 ▸ rfl

theorem connCount_insert_self (g : Graph) (hg : g.Wf) (mem : Nat → Bool) (v : Nat)
    (hv : v < g.n) :
    connCount g (fun u => if u = v then true else mem u) v = connCount g mem v := by
  classical
  unfold connCount
  congr 1
  ext u
  by_cases huv : u = v
  · subst huv
    simp [Finset.mem_filter, hg.2 u hv]
  · simp [Finset.mem_filter, huv]

/-- Counterexample to C7 as stated: on the triangle graph with S = all of
0, 1, 2 and v = 0 (a member), add_counted is a membership no-op and
remove_counted then removes v, so the membership bit-vector is not
restored, although neither call triggers the frequency reset. -/
theorem c7_counterexample :
    (let g : Graph :=
      { n := 3, adj := fun u v => decide ((u, v) ∈
          [(0, 1), (1, 0), (1, 2), (2, 1), (0, 2), (2, 0)]) }
     let s := applyOps g [.addOp 0, .addOp 1, .addOp 2]
     let f : Nat → Nat := fun _ => 0
     let p1 := addCounted g s 0 f
     let p2 := removeCounted g p1.1 0 p1.2
     -- neither call triggers the reset:
     ¬ (f 0 + 1 > (s.add g 0).size) ∧ ¬ (p1.2 0 + 1 > (p1.1.remove g 0).size) ∧
     -- g[0] did rise by exactly 2:
     p2.2 0 = f 0 + 2 ∧
     -- yet membership is not restored:
     s.vertices 0 = true ∧ p2.1.vertices 0 = false) := by
  decide

/-- C7 amended: for a well-formed Graph, a solution S, and a vertex v < n
that is NOT a member of S, add_counted followed by remove_counted increases
g[v] by exactly 2 (leaving all other entries unchanged) provided neither
call triggers the frequency reset, and restores the membership bit-vector,
the cached size, and the cached edge count. -/
theorem c7_roundtrip (g : Graph) (hg : g.Wf) (s : Solution) (v : Nat)
    (hv : v < g.n) (hvm : s.vertices v = false) (freq : Nat → Nat)
    (hr1 : ¬ (freq v + 1 > (s.add g v).size))
    (hr2 : ¬ (freq v + 2 > ((s.add g v).remove g v).size)) :
    (removeCounted g (addCounted g s v freq).1 v (addCounted g s v freq).2).2 v
        = freq v + 2 ∧
    (∀ u, u ≠ v →
      (removeCounted g (addCounted g s v freq).1 v (addCounted g s v freq).2).2 u
        = freq u) ∧
    (∀ u,
      (removeCounted g (addCounted g s v freq).1 v (addCounted g s v freq).2).1.vertices u
        = s.vertices u) ∧
    (removeCounted g (addCounted g s v freq).1 v (addCounted g s v freq).2).1.size
        = s.size ∧
    (removeCounted g (addCounted g s v freq).1 v (addCounted g s v freq).2).1.edge_count
        = s.edge_count := by
  have hvm' : ¬ s.vertices v = true := by simp [hvm]
  have hadds : s.add g v =
      { vertices := fun u => if u = v then true else s.vertices u
        size := s.size + 1
        edge_count := s.edge_count + connCount g s.vertices v } := by
    simp [Solution.add, hvm']
  have haddc : addCounted g s v freq = (s.add g v, fun u => if u = v then freq v + 1 else freq u) := by
    simp only [addCounted]
    rw [if_neg (by simpa using hr1)]
  have hmem1 : (s.add g v).vertices v = true := by
    rw [hadds]; simp
  have hrm : (s.add g v).remove g v =
      { vertices := fun u => if u = v then false else (s.add g v).vertices u
        size := (s.add g v).size - 1
        edge_count := (s.add g v).edge_count - connCount g (s.add g v).vertices v } := by
    simp [Solution.remove, hmem1]
  have hfreq1 : (fun u => if u = v then freq v + 1 else freq u) v = freq v + 1 := by simp
  have hrmc : removeCounted g (s.add g v) v (fun u => if u = v then freq v + 1 else freq u)
      = ((s.add g v).remove g v,
         fun u => if u = v then freq v + 2 else freq u) := by
    simp only [removeCounted, hfreq1]
    rw [if_neg (by simpa using hr2)]
    refine Prod.ext rfl ?_
    funext u
    by_cases huv : u = v
    · simp [huv]
    · simp [huv]
  have hcc : connCount g (s.add g v).vertices v = connCount g s.vertices v := by
    rw [hadds]
    exact connCount_insert_self g hg s.vertices v hv
  refine ⟨?_, ?_, ?_, ?_, ?_⟩
  · rw [haddc, hrmc]; simp
  · intro u huv
    rw [haddc, hrmc]; simp [huv]
  · intro u
    rw [haddc, hrmc, hrm, hadds]
    by_cases huv : u = v
    · simp [huv, hvm]
    · simp [huv]
  · rw [haddc, hrmc, hrm, hadds]
    simp
  · rw [haddc, hrmc, hrm, hcc, hadds]
    simp

/-- Witness for C7's amended round-trip on the triangle graph with
S = members 1, 2 and v = 0. -/
theorem c7_roundtrip_witness :
    (let g : Graph :=
      { n := 3, adj := fun u v => decide ((u, v) ∈
          [(0, 1), (1, 0), (1, 2), (2, 1), (0, 2), (2, 0)]) }
     let s := applyOps g [.addOp 1, .addOp 2]
     let f : Nat → Nat := fun _ => 0
     (removeCounted g (addCounted g s 0 f).1 0 (addCounted g s 0 f).2).2 0 = f 0 + 2 ∧
     (∀ u, (removeCounted g (addCounted g s 0 f).1 0 (addCounted g s 0 f).2).1.vertices u
        = s.vertices u) ∧
     (removeCounted g (addCounted g s 0 f).1 0 (addCounted g s 0 f).2).1.edge_count
        = s.edge_count) := by
  have h := c7_roundtrip
    { n := 3, adj := fun u v => decide ((u, v) ∈
        [(0, 1), (1, 0), (1, 2), (2, 1), (0, 2), (2, 0)]) }
    (by unfold Graph.Wf; decide)
    (applyOps { n := 3, adj := fun u v => decide ((u, v) ∈
        [(0, 1), (1, 0), (1, 2), (2, 1), (0, 2), (2, 0)]) } [.addOp 1, .addOp 2])
    0 (by decide) (by decide) (fun _ => 0) (by decide) (by decide)
  exact ⟨h.1, h.2.2.1, h.2.2.2.2⟩

/-- Witness for C8 at size 3, edges 2, gamma 9/10 on the zero tape. -/
theorem c8_update_tenures_witness :
    (2 ≤ 3 ∧
      ∃ r r2 : Nat,
        r ≤ max (3 / 40) 6 ∧
        r2 ≤ (⌊(6 / 10 : ℚ) * ((max (3 / 40) 6 : Nat) : ℚ)⌋).toNat ∧
        ((DualTabu.new 3 1 1).updateTenures 3 2 (9 / 10) { tape := fun _ => 0, pos := 0 }).1.tu =
          max 1 (min ((⌈(9 / 10 : ℚ) * ((3 * (3 - 1) / 2 : Nat) : ℚ)⌉).toNat - 2) 10 + r) ∧
        ((DualTabu.new 3 1 1).updateTenures 3 2 (9 / 10) { tape := fun _ => 0, pos := 0 }).1.tv =
          max 1 ((⌊(6 / 10 : ℚ) *
            ((min ((⌈(9 / 10 : ℚ) * ((3 * (3 - 1) / 2 : Nat) : ℚ)⌉).toNat - 2) 10 : Nat) : ℚ)⌋).toNat + r2)) := by
  exact ⟨by norm_num,
    (c8_update_tenures (DualTabu.new 3 1 1) 3 2 (9 / 10)).2.1
      { tape := fun _ => 0, pos := 0 } (by norm_num)⟩

theorem mem_setA_parts {g : Graph} {s : Solution} {t : DualTabu} {m u : Nat}
    (h : u ∈ setA g s t m) :
    t.is_tabu_u u = false ∧ connCount g s.vertices u = m := by
  have h' := (List.mem_filter.mp h).2
  rw [Bool.and_eq_true] at h'
  rcases h' with ⟨h1, h2⟩
  refine ⟨?_, beq_iff_eq.mp h2⟩
  cases hb : t.is_tabu_u u
  · rfl
  · rw [hb] at h1; simp at h1

theorem mem_setB_parts {g : Graph} {s : Solution} {t : DualTabu} {m v : Nat}
    (h : v ∈ setB g s t m) :
    t.is_tabu_v v = false ∧ connCount g s.vertices v = m := by
  have h' := (List.mem_filter.mp h).2
  rw [Bool.and_eq_true] at h'
  rcases h' with ⟨h1, h2⟩
  refine ⟨?_, beq_iff_eq.mp h2⟩
  cases hb : t.is_tabu_v v
  · rfl
  · rw [hb] at h1; simp at h1

theorem mem_pairScan {g : Graph} {s : Solution} {A B : List Nat}
    {x : ℤ × Nat × Nat} (hx : x ∈ pairScan g s A B) :
    x.2.1 ∈ A ∧ x.2.2 ∈ B ∧
      x.1 = (connCount g s.vertices x.2.2 : ℤ) - (connCount g s.vertices x.2.1 : ℤ) -
        (if g.adj x.2.1 x.2.2 then 1 else 0) := by
  rcases List.mem_flatMap.mp hx with ⟨u, hu, hx'⟩
  rcases List.mem_map.mp hx' with ⟨v, hv, hx''⟩
  subst hx''
  exact ⟨hu, hv, rfl⟩

theorem scan_pair_val {g : Graph} {s : Solution} {t : DualTabu} {m mo : Nat}
    {x : ℤ × Nat × Nat}
    (hx : x ∈ pairScan g s (setA g s t m) (setB g s t mo)) :
    isTabuMove t x.2.1 x.2.2 = false ∧
      x.1 = (mo : ℤ) - (m : ℤ) - (if g.adj x.2.1 x.2.2 then 1 else 0) := by
  obtain ⟨hu, hv, hval⟩ := mem_pairScan hx
  obtain ⟨htu, hcu⟩ := mem_setA_parts hu
  obtain ⟨htv, hcv⟩ := mem_setB_parts hv
  constructor
  · simp [isTabuMove, htu, htv]
  · rw [hval, hcu, hcv]

theorem aspirList_nil (g : Graph) (s : Solution) (t : DualTabu) (bestRho : ℚ)
    (m mo : Nat) :
    aspirList g s t bestRho (setA g s t m) (setB g s t mo) = [] := by
  rw [aspirList, List.filter_eq_nil_iff]
  intro x hx
  have htabu := (scan_pair_val hx).1
  simp [htabu]

theorem chooseL_some_mem {α : Type} {r : Rng} {xs : List α} {x : α}
    (h : (r.chooseL xs).1 = some x) : x ∈ xs := by
  by_cases he : xs.isEmpty
  · rw [Rng.chooseL, if_pos he] at h
    cases h
  · rw [Rng.chooseL, if_neg he] at h
    simp only at h
    exact List.get?_mem h

/-- C2 evaluated at a concrete failing input (path graph 0-1-2 plus isolated
vertex 3, S = 0,1,2, vertices 0 and 2 tabu-for-remove, vertex 3
tabu-for-add): calculate_critical_degrees and build_critical_sets filter the
members by is_tabu_u (the re-add tabu) and the non-members by is_tabu_v (the
removal tabu), which is the opposite of the tabu filters stated by the claim
(modelled by the minInSpec/maxOutSpec/setASpec/setBSpec definitions), so the
computed critical degrees and critical sets differ from the claimed ones. -/
theorem c2_swapped_tabu_filters :
    minInCode gPath4 sPath4 tPath4 = 1 ∧ minInSpec gPath4 sPath4 tPath4 = some 2 ∧
    setA gPath4 sPath4 tPath4 (minInCode gPath4 sPath4 tPath4) = [0, 2] ∧
    setASpec gPath4 sPath4 tPath4 = [1] ∧
    maxOutCode gPath4 sPath4 tPath4 = 0 ∧ maxOutSpec gPath4 sPath4 tPath4 = none ∧
    setB gPath4 sPath4 tPath4 (maxOutCode gPath4 sPath4 tPath4) = [3] ∧
    setBSpec gPath4 sPath4 tPath4 = [] := by
  decide

/-- C10: every candidate pair of improve_once is non-tabu, because the
critical sets A and B are built only from vertices passing the !is_tabu_u
(for A) and !is_tabu_v (for B) filters; consequently the aspirating_swaps
list is always empty, and any pair produced by the selection cascade over
A x B has a non-tabu u component and a non-tabu v component. -/
theorem c10_candidates_never_tabu (g : Graph) (s : Solution) (t : DualTabu)
    (bestRho : ℚ) :
    (∀ m, ∀ u ∈ setA g s t m, t.is_tabu_u u = false) ∧
    (∀ mo, ∀ v ∈ setB g s t mo, t.is_tabu_v v = false) ∧
    (∀ m mo, aspirList g s t bestRho (setA g s t m) (setB g s t mo) = []) ∧
    (∀ m mo rng x,
      (chosenSwap g s t bestRho m mo (setA g s t m) (setB g s t mo) rng).1 = some x →
      t.is_tabu_u x.2.1 = false ∧ t.is_tabu_v x.2.2 = false) := by
  refine ⟨fun m u hu => (mem_setA_parts hu).1,
    fun mo v hv => (mem_setB_parts hv).1,
    fun m mo => aspirList_nil g s t bestRho m mo, ?_⟩
  intro m mo rng x hch
  rw [chosenSwap, aspirList_nil g s t bestRho m mo] at hch
  simp only [maxByDeltaLast, List.foldl_nil] at hch
  by_cases hb : (bestZeroList g s t m mo (setA g s t m) (setB g s t mo)).isEmpty
  · rw [if_neg (by simp [hb])] at hch
    by_cases ho : (otherList g s t m mo (setA g s t m) (setB g s t mo)).isEmpty
    · rw [if_neg (by simp [ho])] at hch
      cases hch
    · rw [if_pos (by simp [ho])] at hch
      have hmem := chooseL_some_mem hch
      have hscan : x ∈ pairScan g s (setA g s t m) (setB g s t mo) :=
        (List.mem_filter.mp hmem).1
      have := (scan_pair_val hscan).1
      rcases Bool.or_eq_false_iff.mp this with ⟨h1, h2⟩
      exact ⟨h1, h2⟩
  · rw [if_pos (by simp [hb])] at hch
    have hmem := chooseL_some_mem hch
    have hscan : x ∈ pairScan g s (setA g s t m) (setB g s t mo) :=
      (List.mem_filter.mp hmem).1
    have := (scan_pair_val hscan).1
    rcases Bool.or_eq_false_iff.mp this with ⟨h1, h2⟩
    exact ⟨h1, h2⟩

/-- Witness for C10 on the path graph instance of c2_swapped_tabu_filters. -/
theorem c10_candidates_never_tabu_witness :
    ∀ u ∈ setA gPath4 sPath4 tPath4 1, tPath4.is_tabu_u u = false := by
  intro u hu
  exact (c10_candidates_never_tabu gPath4 sPath4 tPath4 0).1 1 u hu

theorem scan_delta_cases {g : Graph} {s : Solution} {t : DualTabu} {m mo : Nat}
    {x : ℤ × Nat × Nat}
    (hx : x ∈ pairScan g s (setA g s t m) (setB g s t mo)) :
    (g.adj x.2.1 x.2.2 = false ∧ x.1 = (mo : ℤ) - (m : ℤ)) ∨
    (g.adj x.2.1 x.2.2 = true ∧ x.1 = (mo : ℤ) - (m : ℤ) - 1) := by
  obtain ⟨_, hval⟩ := scan_pair_val hx
  by_cases hadj : g.adj x.2.1 x.2.2 = true
  · right
    rw [hadj] at hval
    simp only [if_true] at hval
    exact ⟨hadj, hval⟩
  · left
    have hadj' : g.adj x.2.1 x.2.2 = false := by
      cases h : g.adj x.2.1 x.2.2
      · rfl
      · exact absurd h hadj
    rw [hadj'] at hval
    simp only [Bool.false_eq_true, if_false, sub_zero] at hval
    exact ⟨hadj', hval⟩

theorem mem_bestZeroList_iff {g : Graph} {s : Solution} {t : DualTabu} {m mo : Nat}
    {x : ℤ × Nat × Nat} :
    x ∈ bestZeroList g s t m mo (setA g s t m) (setB g s t mo) ↔
      (x ∈ pairScan g s (setA g s t m) (setB g s t mo) ∧ 0 ≤ x.1 ∧
        x.1 = (mo : ℤ) - (m : ℤ)) := by
  constructor
  · intro hx
    have hsc := (List.mem_filter.mp hx).1
    have hp := (List.mem_filter.mp hx).2
    obtain ⟨htabu, _⟩ := scan_pair_val hsc
    simp only [htabu, Bool.not_false, Bool.true_and, Bool.and_eq_true,
      decide_eq_true_eq] at hp
    exact ⟨hsc, hp.1, hp.2.2⟩
  · rintro ⟨hsc, hge, heq⟩
    obtain ⟨htabu, _⟩ := scan_pair_val hsc
    rcases scan_delta_cases hsc with ⟨hadj, _⟩ | ⟨hadj, hval⟩
    · refine List.mem_filter.mpr ⟨hsc, ?_⟩
      simp [htabu, hadj, hge, heq] <;> omega
    · rw [hval] at heq
      omega

theorem mem_otherList_iff {g : Graph} {s : Solution} {t : DualTabu} {m mo : Nat}
    {x : ℤ × Nat × Nat} :
    x ∈ otherList g s t m mo (setA g s t m) (setB g s t mo) ↔
      (x ∈ pairScan g s (setA g s t m) (setB g s t mo) ∧ 0 ≤ x.1 ∧
        x.1 = (mo : ℤ) - (m : ℤ) - 1) := by
  constructor
  · intro hx
    have hsc := (List.mem_filter.mp hx).1
    have hp := (List.mem_filter.mp hx).2
    obtain ⟨htabu, _⟩ := scan_pair_val hsc
    rcases scan_delta_cases hsc with ⟨hadj, hval⟩ | ⟨hadj, hval⟩
    · exfalso
      simp [htabu, hadj, hval] at hp
    · simp only [htabu, Bool.not_false, Bool.true_and, Bool.and_eq_true,
        decide_eq_true_eq] at hp
      exact ⟨hsc, hp.1, hval⟩
  · rintro ⟨hsc, hge, heq⟩
    obtain ⟨htabu, _⟩ := scan_pair_val hsc
    rcases scan_delta_cases hsc with ⟨hadj, hval⟩ | ⟨hadj, hval⟩
    · rw [hval] at heq
      omega
    · refine List.mem_filter.mpr ⟨hsc, ?_⟩
      simp [htabu, hadj, hge, heq] <;> omega

theorem eligLists_nil {g : Graph} {s : Solution} {t : DualTabu} {m mo : Nat}
    (hno : ∀ y ∈ pairScan g s (setA g s t m) (setB g s t mo),
      isTabuMove t y.2.1 y.2.2 = false → ¬ 0 ≤ y.1) :
    bestZeroList g s t m mo (setA g s t m) (setB g s t mo) = [] ∧
    otherList g s t m mo (setA g s t m) (setB g s t mo) = [] := by
  constructor
  · rw [List.eq_nil_iff_forall_not_mem]
    intro x hx
    obtain ⟨hsc, hge, _⟩ := mem_bestZeroList_iff.mp hx
    obtain ⟨htabu, _⟩ := scan_pair_val hsc
    exact hno x hsc htabu hge
  · rw [List.eq_nil_iff_forall_not_mem]
    intro x hx
    obtain ⟨hsc, hge, _⟩ := mem_otherList_iff.mp hx
    obtain ⟨htabu, _⟩ := scan_pair_val hsc
    exact hno x hsc htabu hge

theorem chosenSwap_none_of_no_eligible {g : Graph} {s : Solution} {t : DualTabu}
    {m mo : Nat} (bestRho : ℚ) (rng : Rng)
    (hno : ∀ y ∈ pairScan g s (setA g s t m) (setB g s t mo),
      isTabuMove t y.2.1 y.2.2 = false → ¬ 0 ≤ y.1) :
    chosenSwap g s t bestRho m mo (setA g s t m) (setB g s t mo) rng =
      (none, rng) := by
  obtain ⟨hb, ho⟩ := eligLists_nil hno
  rw [chosenSwap, aspirList_nil g s t bestRho m mo]
  simp only [maxByDeltaLast, List.foldl_nil]
  rw [hb, ho]
  simp

/-- C5: with the aspiration list always empty, the list that improve_once
draws from uniformly (swapPool) consists of exactly the non-tabu pairs of
A x B whose delta is non-negative and maximal among all non-tabu pairs with
non-negative delta; when no such pair exists the pool is empty and the
selection cascade yields no swap; and the selection cascade is exactly a
uniform choice from the pool. -/
theorem c5_swap_selection (g : Graph) (s : Solution) (t : DualTabu)
    (bestRho : ℚ) :
    (∀ x, x ∈ swapPool g s t (minInCode g s t) (maxOutCode g s t)
        (setA g s t (minInCode g s t)) (setB g s t (maxOutCode g s t)) ↔
      (x ∈ pairScan g s (setA g s t (minInCode g s t)) (setB g s t (maxOutCode g s t)) ∧
        isTabuMove t x.2.1 x.2.2 = false ∧ 0 ≤ x.1 ∧
        ∀ y ∈ pairScan g s (setA g s t (minInCode g s t)) (setB g s t (maxOutCode g s t)),
          isTabuMove t y.2.1 y.2.2 = false → 0 ≤ y.1 → y.1 ≤ x.1)) ∧
    ((∀ y ∈ pairScan g s (setA g s t (minInCode g s t)) (setB g s t (maxOutCode g s t)),
        isTabuMove t y.2.1 y.2.2 = false → ¬ 0 ≤ y.1) →
      swapPool g s t (minInCode g s t) (maxOutCode g s t)
        (setA g s t (minInCode g s t)) (setB g s t (maxOutCode g s t)) = []) ∧
    (∀ rng : Rng,
      chosenSwap g s t bestRho (minInCode g s t) (maxOutCode g s t)
        (setA g s t (minInCode g s t)) (setB g s t (maxOutCode g s t)) rng =
      rng.chooseL (swapPool g s t (minInCode g s t) (maxOutCode g s t)
        (setA g s t (minInCode g s t)) (setB g s t (maxOutCode g s t)))) ∧
    (∀ (freq : Nat → Nat) (p : ParamsM) (rng : Rng),
      (∀ y ∈ pairScan g s (setA g s t (minInCode g s t)) (setB g s t (maxOutCode g s t)),
          isTabuMove t y.2.1 y.2.2 = false → ¬ 0 ≤ y.1) →
      (improveOnce g s t bestRho freq p rng).2.2.2.2 = false) := by
  set m := minInCode g s t with hm
  set mo := maxOutCode g s t with hmo
  set A := setA g s t m with hA
  set B := setB g s t mo with hB
  set d : ℤ := (mo : ℤ) - (m : ℤ) with hd
  refine ⟨?_, ?_, ?_, ?_⟩
  · intro x
    rw [swapPool]
    by_cases hbe : (bestZeroList g s t m mo A B).isEmpty
    · rw [if_pos hbe]
      have hbnil : bestZeroList g s t m mo A B = [] := List.isEmpty_iff.mp hbe
      constructor
      · intro hx
        obtain ⟨hsc, hge, heq⟩ := mem_otherList_iff.mp hx
        obtain ⟨htabu, _⟩ := scan_pair_val hsc
        refine ⟨hsc, htabu, hge, ?_⟩
        intro y hy _ hyge
        rcases scan_delta_cases hy with ⟨_, hyval⟩ | ⟨_, hyval⟩
        · exfalso
          have : y ∈ bestZeroList g s t m mo A B :=
            mem_bestZeroList_iff.mpr ⟨hy, hyge, hyval⟩
          rw [hbnil] at this
          cases this
        · rw [hyval, heq]
      · rintro ⟨hsc, htabu, hge, _⟩
        rcases scan_delta_cases hsc with ⟨_, hval⟩ | ⟨_, hval⟩
        · exfalso
          have : x ∈ bestZeroList g s t m mo A B :=
            mem_bestZeroList_iff.mpr ⟨hsc, hge, hval⟩
          rw [hbnil] at this
          cases this
        · exact mem_otherList_iff.mpr ⟨hsc, hge, hval⟩
    · rw [if_neg hbe]
      have hbne : bestZeroList g s t m mo A B ≠ [] := by
        intro h
        rw [h] at hbe
        exact hbe (by simp)
      obtain ⟨x0, hx0⟩ := List.exists_mem_of_ne_nil _ hbne
      obtain ⟨hx0sc, hx0ge, hx0eq⟩ := mem_bestZeroList_iff.mp hx0
      obtain ⟨hx0tabu, _⟩ := scan_pair_val hx0sc
      constructor
      · intro hx
        obtain ⟨hsc, hge, heq⟩ := mem_bestZeroList_iff.mp hx
        obtain ⟨htabu, _⟩ := scan_pair_val hsc
        refine ⟨hsc, htabu, hge, ?_⟩
        intro y hy _ _
        rcases scan_delta_cases hy with ⟨_, hyval⟩ | ⟨_, hyval⟩
        · rw [hyval, heq]
        · rw [hyval, heq]
          omega
      · rintro ⟨hsc, htabu, hge, hmax⟩
        have hxd : x.1 = d := by
          have h1 : x0.1 ≤ x.1 := hmax x0 hx0sc hx0tabu hx0ge
          rcases scan_delta_cases hsc with ⟨_, hval⟩ | ⟨_, hval⟩
          · exact hval
          · rw [hx0eq] at h1
            rw [hval] at h1 ⊢
            omega
        exact mem_bestZeroList_iff.mpr ⟨hsc, hge, hxd⟩
  · intro hno
    rw [swapPool]
    have hbnil : bestZeroList g s t m mo A B = [] := by
      rw [List.eq_nil_iff_forall_not_mem]
      intro x hx
      obtain ⟨hsc, hge, _⟩ := mem_bestZeroList_iff.mp hx
      obtain ⟨htabu, _⟩ := scan_pair_val hsc
      exact hno x hsc htabu hge
    have honil : otherList g s t m mo A B = [] := by
      rw [List.eq_nil_iff_forall_not_mem]
      intro x hx
      obtain ⟨hsc, hge, _⟩ := mem_otherList_iff.mp hx
      obtain ⟨htabu, _⟩ := scan_pair_val hsc
      exact hno x hsc htabu hge
    rw [hbnil, honil]
    simp
  · intro rng
    rw [chosenSwap, aspirList_nil g s t bestRho m mo, swapPool]
    simp only [maxByDeltaLast, List.foldl_nil]
    by_cases hbe : (bestZeroList g s t m mo A B).isEmpty
    · rw [if_pos hbe, if_neg (by simp [hbe])]
      by_cases hoe : (otherList g s t m mo A B).isEmpty
      · rw [if_neg (by simp [hoe])]
        have : otherList g s t m mo A B = [] := List.isEmpty_iff.mp hoe
        rw [this, Rng.chooseL]
        simp
      · rw [if_pos (by simp [hoe])]
    · rw [if_neg hbe, if_pos (by simp [hbe])]
  · intro freq p rng hno
    rw [hA, hB, hm, hmo] at hno
    rw [improveOnce]
    dsimp only
    by_cases h1 : s.size = 0 ∨ s.size = g.n
    · rw [if_pos h1]
    · rw [if_neg h1]
      by_cases h2 : minInCode g s t = USIZE_MAX ∨ maxOutCode g s t = 0
      · rw [if_pos h2]
      · rw [if_neg h2]
        rw [chosenSwap_none_of_no_eligible bestRho rng hno]

/-- Witness for C5 on gPath4 with S = 0,1 and a fresh tabu state: the pair
(delta 0, u 0, v 2) is in the pool, hence non-tabu, of non-negative delta,
and delta-maximal. -/
theorem c5_swap_selection_witness :
    ((0, 0, 2) : ℤ × Nat × Nat) ∈
      pairScan gPath4 sPair4 (setA gPath4 sPair4 tZero4 (minInCode gPath4 sPair4 tZero4))
        (setB gPath4 sPair4 tZero4 (maxOutCode gPath4 sPair4 tZero4)) ∧
    isTabuMove tZero4 0 2 = false ∧ (0 : ℤ) ≤ 0 ∧
    ∀ y ∈ pairScan gPath4 sPair4
        (setA gPath4 sPair4 tZero4 (minInCode gPath4 sPair4 tZero4))
        (setB gPath4 sPair4 tZero4 (maxOutCode gPath4 sPair4 tZero4)),
      isTabuMove tZero4 y.2.1 y.2.2 = false → 0 ≤ y.1 → y.1 ≤ (0 : ℤ) :=
  ((c5_swap_selection gPath4 sPair4 tZero4 0).1 ((0, 0, 2) : ℤ × Nat × Nat)).mp
    (by decide)

theorem removeCounted_fst (g : Graph) (s : Solution) (v : Nat) (freq : Nat → Nat) :
    (removeCounted g s v freq).1 = s.remove g v := by
  simp only [removeCounted]
  split <;> split <;> rfl

theorem addCounted_fst (g : Graph) (s : Solution) (v : Nat) (freq : Nat → Nat) :
    (addCounted g s v freq).1 = s.add g v := by
  simp only [addCounted]
  split <;> split <;> rfl

theorem chooseL_ne_nil {α : Type} (r : Rng) {xs : List α} (h : xs ≠ []) :
    ∃ x, (r.chooseL xs).1 = some x ∧ x ∈ xs := by
  have hne : ¬ xs.isEmpty = true := by
    simp [List.isEmpty_iff, h]
  rw [Rng.chooseL, if_neg hne]
  have hlt : r.tape r.pos % xs.length < xs.length :=
    Nat.mod_lt _ (List.length_pos.mpr h)
  refine ⟨xs.get ⟨r.tape r.pos % xs.length, hlt⟩, ?_, List.get_mem xs _ _⟩
  simp [List.get?_eq_get hlt]

theorem lightCriticalSwap_tabu_cases (g : Graph) (cur : Solution) (t : DualTabu)
    (freq : Nat → Nat) (rng : Rng) :
    (lightCriticalSwap g cur t freq rng).2.1 = t ∨
    ∃ u v, (lightCriticalSwap g cur t freq rng).2.1 = (t.forbid_u u).forbid_v v := by
  rw [lightCriticalSwap]
  split
  · right
    exact ⟨_, _, rfl⟩
  · dsimp only
    split
    · right
      exact ⟨_, _, rfl⟩
    · left
      rfl

/-- Counterexample to C6 as stated: on the single-edge graph with S = the
single vertex 0 and a fresh tabu state with tenures 3, the light
critical-swap invoked at stagnation executes the swap 0 to 1 but leaves the
stamped expiry entries at 3 instead of resetting them to zero, and leaves
the tenure tu at 3 rather than recomputing it (the post-perturbation size 1
would force tenure 1). -/
theorem c6_counterexample :
    (lightCriticalSwap gEdge2 sSingle2 tNew2 (fun _ => 0) rngZero).1.vertices 1 = true ∧
    (lightCriticalSwap gEdge2 sSingle2 tNew2 (fun _ => 0) rngZero).1.vertices 0 = false ∧
    (lightCriticalSwap gEdge2 sSingle2 tNew2 (fun _ => 0) rngZero).2.1.expiry_u 0 = 3 ∧
    (lightCriticalSwap gEdge2 sSingle2 tNew2 (fun _ => 0) rngZero).2.1.expiry_v 1 = 3 ∧
    (lightCriticalSwap gEdge2 sSingle2 tNew2 (fun _ => 0) rngZero).2.1.tu = 3 ∧
    (3 : Nat) ≠ 0 := by
  decide

/-- C6 amended: heavy_perturbation, whenever the solution has a member,
performs its perturbation and then resets both tabu expiry arrays to zero
(leaving the tenures unchanged by the reset) and recomputes the tenures
from the post-perturbation solution; the light critical-swap of
solve_fixed_k instead never resets the expiry arrays and never recomputes
the tenures: it leaves the tabu state unchanged except possibly for the two
forbid stamps of the executed swap. -/
theorem c6_perturbation_tabu_effects :
    (∀ (g : Graph) (sol : Solution) (t : DualTabu) (rng : Rng) (p : ParamsM)
        (freq : Nat → Nat), solMembers g sol ≠ [] → 1 ≤ sol.size →
      ∃ res : Solution × DualTabu × (Nat → Nat) × Rng,
        heavyPerturbation g sol t rng p freq = some res ∧
        (∀ w, res.2.1.expiry_u w = 0 ∧ res.2.1.expiry_v w = 0) ∧
        ∃ rng' : Rng,
          res.2.1 = ((t.reset).updateTenures res.1.size res.1.edge_count
            p.gamma_target rng').1) ∧
    (∀ (g : Graph) (cur : Solution) (t : DualTabu) (freq : Nat → Nat) (rng : Rng),
      (lightCriticalSwap g cur t freq rng).2.1.tu = t.tu ∧
      (lightCriticalSwap g cur t freq rng).2.1.tv = t.tv ∧
      (lightCriticalSwap g cur t freq rng).2.1.iter = t.iter ∧
      ((lightCriticalSwap g cur t freq rng).2.1 = t ∨
        ∃ u v, (lightCriticalSwap g cur t freq rng).2.1 = (t.forbid_u u).forbid_v v)) := by
  constructor
  · intro g sol t rng p freq hmem hk
    have hk' : ¬ sol.size < 1 := by omega
    obtain ⟨u, hchu, humem⟩ := chooseL_ne_nil rng hmem
    have humem' : sol.vertices u = true := (List.mem_filter.mp humem).2
    have hurange : u ∈ List.range g.n := (List.mem_filter.mp humem).1
    have huv : (sol.remove g u).vertices u = false := by
      rw [Solution.remove, if_neg (by simp [humem'])]
      simp
    have hnm : u ∈ solNonMembers g (sol.remove g u) := by
      rw [solNonMembers, List.mem_filter]
      exact ⟨hurange, by simp [huv]⟩
    have hnmne : solNonMembers g (sol.remove g u) ≠ [] :=
      List.ne_nil_of_mem hnm
    -- the fallback candidate list is non-empty
    have hfall : ∀ md, ((solNonMembers g (sol.remove g u)).map
        fun v => connCount g (sol.remove g u).vertices v).min? = some md →
        ((List.range g.n).filter fun v =>
          ! (sol.remove g u).vertices v &&
            (connCount g (sol.remove g u).vertices v == md)) ≠ [] := by
      intro md hmd
      have hmdmem : md ∈ (solNonMembers g (sol.remove g u)).map
          fun v => connCount g (sol.remove g u).vertices v :=
        List.min?_mem (fun a b => by omega) hmd
      obtain ⟨w, hw, hwmd⟩ := List.mem_map.mp hmdmem
      have hw1 := List.mem_filter.mp hw
      apply List.ne_nil_of_mem (a := w)
      rw [List.mem_filter]
      refine ⟨hw1.1, ?_⟩
      rw [Bool.and_eq_true]
      exact ⟨hw1.2, by simp [hwmd]⟩
    simp only [heavyPerturbation, if_neg hk', hchu]
    set s1 := (removeCounted g sol u freq).1 with hs1
    have hs1' : s1 = sol.remove g u := by
      rw [hs1, removeCounted_fst]
    set f1 := (removeCounted g sol u freq).2 with hf1
    set dn : ℚ := if g.n < 2 then 0
        else 2 * (g.m : ℚ) / ((g.n * (g.n - 1) : Nat) : ℚ) with hdn
    set h : Nat := if dn ≤ 1 / 2
        then (⌊(85 / 100 : ℚ) * p.gamma_target * (sol.size : ℚ)⌋).toNat
        else (⌊p.gamma_target * (sol.size : ℚ)⌋).toNat with hh
    set cands0 := (List.range g.n).filter (fun v =>
      ! s1.vertices v && decide (connCount g s1.vertices v < h)) with hcands0
    set cands := (if cands0.isEmpty then
        (List.range g.n).filter fun v =>
          ! s1.vertices v && (connCount g s1.vertices v ==
            (((solNonMembers g s1).map fun v => connCount g s1.vertices v).min?).getD 0)
      else cands0) with hcands
    have hcne : cands ≠ [] := by
      rw [hcands]
      by_cases h0 : cands0.isEmpty
      · rw [if_pos h0]
        rcases hmin : ((solNonMembers g s1).map
            fun v => connCount g s1.vertices v).min? with _ | md
        · exfalso
          rw [List.min?_eq_none_iff, List.map_eq_nil_iff] at hmin
          rw [hs1'] at hmin
          exact hnmne hmin
        · have hthis := hfall md (by rw [← hs1']; exact hmin)
          rw [← hs1'] at hthis
          simpa using hthis
      · rw [if_neg h0]
        exact fun hnil => h0 (by simp [hnil])
    have hcne' : ¬ cands.isEmpty = true := by
      simpa [List.isEmpty_iff] using hcne
    obtain ⟨v, hchv, _⟩ := chooseL_ne_nil (rng.chooseL (solMembers g sol)).2 hcne
    rw [if_neg hcne', hchv]
    refine ⟨_, rfl, ?_, ?_⟩
    · intro w
      constructor
      · rw [DualTabu.updateTenures]
        by_cases hlt2 : (addCounted g s1 v f1).1.size < 2
        · rw [if_pos hlt2]
          rfl
        · rw [if_neg hlt2]
          rfl
      · rw [DualTabu.updateTenures]
        by_cases hlt2 : (addCounted g s1 v f1).1.size < 2
        · rw [if_pos hlt2]
          rfl
        · rw [if_neg hlt2]
          rfl
    · exact ⟨(rng.chooseL (solMembers g sol)).2.chooseL cands |>.2, rfl⟩
  · intro g cur t freq rng
    rcases lightCriticalSwap_tabu_cases g cur t freq rng with h | ⟨u, v, h⟩
    · rw [h]
      exact ⟨rfl, rfl, rfl, Or.inl rfl⟩
    · rw [h]
      exact ⟨rfl, rfl, rfl, Or.inr ⟨u, v, rfl⟩⟩

/-- Witness for C6's amended theorem: heavy perturbation on gEdge2 from
S = the single vertex 0 resets the expiries and recomputes the tenures. -/
theorem c6_perturbation_tabu_effects_witness :
    solMembers gEdge2 sSingle2 ≠ [] ∧ 1 ≤ sSingle2.size ∧
    ∃ res : Solution × DualTabu × (Nat → Nat) × Rng,
      heavyPerturbation gEdge2 sSingle2 tNew2 rngZero
        { gamma_target := 9 / 10, stagnation_iter := 10, max_iter := 100
          tenure_u := 3, tenure_v := 3, max_time_seconds := 0 } (fun _ => 0) = some res ∧
      (∀ w, res.2.1.expiry_u w = 0 ∧ res.2.1.expiry_v w = 0) ∧
      ∃ rng' : Rng,
        res.2.1 = ((tNew2.reset).updateTenures res.1.size res.1.edge_count
          (9 / 10) rng').1 :=
  ⟨by decide, by decide,
    (c6_perturbation_tabu_effects.1 gEdge2 sSingle2 tNew2 rngZero
      { gamma_target := 9 / 10, stagnation_iter := 10, max_iter := 100
        tenure_u := 3, tenure_v := 3, max_time_seconds := 0 } (fun _ => 0) (by decide) (by decide))⟩

theorem greedyRandomK_assert {g : Graph} {k : Nat} (rng : Rng)
    (h : ¬ (0 < k ∧ k ≤ g.n)) : greedyRandomK g k rng = none := by
  rw [greedyRandomK, if_pos h]

theorem solveFixedK_guard_out (g : Graph) (k : Nat) (rng : Rng)
    (p : ParamsM) (f : Nat)
    (hguard : (if k > 1 then k * (k - 1) / 2 else 0) <
      (⌈p.gamma_target * ((if k > 1 then k * (k - 1) / 2 else 0 : Nat) : ℚ)⌉).toNat) :
    solveFixedK g k rng p f = FKRes.out Solution.new := by
  simp only [solveFixedK]
  rw [if_pos hguard]

theorem solveFixedK_maxiter_zero (g : Graph) (k : Nat) (rng : Rng)
    (p : ParamsM) (f : Nat) (h0 : p.max_iter = 0) :
    solveFixedK g k rng p (f + 1) = FKRes.out Solution.new := by
  by_cases hguard : (if k > 1 then k * (k - 1) / 2 else 0) <
      (⌈p.gamma_target * ((if k > 1 then k * (k - 1) / 2 else 0 : Nat) : ℚ)⌉).toNat
  · exact solveFixedK_guard_out g k rng p (f + 1) hguard
  · simp only [solveFixedK]
    rw [if_neg hguard]
    simp only [outerLoop]
    rw [if_neg (by omega)]

theorem solveFixedK_assert_panic (g : Graph) (k : Nat) (rng : Rng)
    (p : ParamsM) (f : Nat)
    (hguard : ¬ ((if k > 1 then k * (k - 1) / 2 else 0) <
      (⌈p.gamma_target * ((if k > 1 then k * (k - 1) / 2 else 0 : Nat) : ℚ)⌉).toNat))
    (hmax : 0 < p.max_iter) (hk : k = 0 ∨ g.n < k) :
    solveFixedK g k rng p (f + 1) = FKRes.panic := by
  simp only [solveFixedK]
  rw [if_neg hguard]
  simp only [outerLoop]
  rw [if_pos (by omega)]
  rw [if_pos (show Solution.new.size = 0 from rfl)]
  rw [greedyRandomK_assert rng (by omega)]

/-- Counterexample to C3 as stated: on the empty graph with k = 0 (a
degenerate instance with n = 0 and k = 0), gamma = 1/2 and max_iter = 1,
solve_fixed_k panics in greedy_random_k's assertion instead of returning
the empty solution: the guard compares C(k,2) against ceil(gamma C(k,2))
and so never fires for gamma <= 1. -/
theorem c3_counterexample :
    solveFixedK gEmpty0 0 rngZero pHalf 1 = FKRes.panic ∧
    FKRes.panic ≠ FKRes.out Solution.new := by
  constructor
  · refine solveFixedK_assert_panic gEmpty0 0 rngZero pHalf 0 ?_
      (by norm_num [pHalf]) (Or.inl rfl)
    simp
  · intro h
    cases h

/-- C3 amended: solve_fixed_k returns the empty solution without any move
attempt only when ceil(gamma C(k,2)) exceeds C(k,2) (possible only for
gamma above 1) or when max_iter = 0; for the degenerate inputs with k = 0
or k > n (which covers every n = 0 instance) and max_iter > 0 it panics in
greedy_random_k's assertion before any move attempt. -/
theorem c3_degenerate_behaviour (g : Graph) (k : Nat) (rng : Rng)
    (p : ParamsM) (fuel : Nat) (hfuel : 1 ≤ fuel) :
    ((if k > 1 then k * (k - 1) / 2 else 0) <
        (⌈p.gamma_target * ((if k > 1 then k * (k - 1) / 2 else 0 : Nat) : ℚ)⌉).toNat →
      solveFixedK g k rng p fuel = FKRes.out Solution.new) ∧
    (p.max_iter = 0 → solveFixedK g k rng p fuel = FKRes.out Solution.new) ∧
    (¬ ((if k > 1 then k * (k - 1) / 2 else 0) <
        (⌈p.gamma_target * ((if k > 1 then k * (k - 1) / 2 else 0 : Nat) : ℚ)⌉).toNat) →
      0 < p.max_iter → (k = 0 ∨ g.n < k) →
      solveFixedK g k rng p fuel = FKRes.panic) := by
  obtain ⟨f, rfl⟩ : ∃ f, fuel = f + 1 := ⟨fuel - 1, by omega⟩
  exact ⟨solveFixedK_guard_out g k rng p (f + 1),
    solveFixedK_maxiter_zero g k rng p f,
    solveFixedK_assert_panic g k rng p f⟩

/-- Witness for C3's amended theorem: on the edgeless 3-vertex graph with
k = 5 > n, gamma = 1/2 and max_iter = 1, solve_fixed_k panics. -/
theorem c3_degenerate_behaviour_witness :
    (1 : Nat) ≤ 1 ∧ 0 < pHalf.max_iter ∧ gEmpty3.n < 5 ∧
    solveFixedK gEmpty3 5 rngZero pHalf 1 = FKRes.panic :=
  ⟨by decide, by decide, by decide,
    (c3_degenerate_behaviour gEmpty3 5 rngZero pHalf 1 (by decide)).2.2
      (by norm_num [pHalf]) (by decide) (Or.inr (by decide))⟩

theorem beatsSol_irrefl (a : Solution) : ¬ beatsSol a a := by
  simp [beatsSol]

theorem beatsSol_trans {a b c : Solution} (h1 : beatsSol a b) (h2 : beatsSol b c) :
    beatsSol a c := by
  rcases h1 with h | ⟨e1, d1⟩ <;> rcases h2 with h' | ⟨e2, d2⟩
  · left; omega
  · left; omega
  · left; omega
  · right
    exact ⟨e1.trans e2, lt_trans d2 d1⟩

theorem notBeatsSol_trans {a b c : Solution} (h1 : ¬ beatsSol a b)
    (h2 : ¬ beatsSol b c) : ¬ beatsSol a c := by
  unfold beatsSol at *
  push_neg at h1 h2
  rintro (h | ⟨he, hd⟩)
  · omega
  · have e1 : a.size = b.size := by omega
    have e2 : b.size = c.size := by omega
    have d1 := h1.2 e1
    have d2 := h2.2 e2
    linarith

theorem maxkLoop_spec (g : Graph) (fixedK : Nat → Solution × Bool) (p : ParamsM)
    (elapsed : Nat → Bool) (pre : List Nat) (hto : ¬ p.max_time_seconds > 0) :
    ∀ (fuel k : Nat) (best : Solution) (timedOut : Bool),
      g.n + 1 ≤ k + fuel →
      ∃ stop, k ≤ stop ∧
        (∀ j, k ≤ j → j < stop → j ≤ g.n ∧
          ¬ (ubEdges pre j < (⌈p.gamma_target * ((j * (j - 1) : Nat) : ℚ) / 2⌉).toNat) ∧
          (fixedK j).1.isGammaFeasible p.gamma_target = true) ∧
        (stop ≤ g.n →
          ubEdges pre stop < (⌈p.gamma_target * ((stop * (stop - 1) : Nat) : ℚ) / 2⌉).toNat ∨
          (fixedK stop).1.isGammaFeasible p.gamma_target = false) ∧
        ((maxkLoop g fixedK p elapsed pre fuel k best timedOut).1 = best ∨
          ∃ j, k ≤ j ∧ j < stop ∧
            (maxkLoop g fixedK p elapsed pre fuel k best timedOut).1 = (fixedK j).1) ∧
        ¬ beatsSol best (maxkLoop g fixedK p elapsed pre fuel k best timedOut).1 ∧
        (∀ j, k ≤ j → j < stop →
          ¬ beatsSol (fixedK j).1 (maxkLoop g fixedK p elapsed pre fuel k best timedOut).1) := by
  have hdec : decide (p.max_time_seconds > 0) = false := decide_eq_false hto
  intro fuel
  induction fuel with
  | zero =>
    intro k best timedOut hfuel
    refine ⟨k, le_refl k, fun j hj1 hj2 => by omega, fun h => by omega,
      Or.inl rfl, beatsSol_irrefl best, fun j hj1 hj2 => by omega⟩
  | succ fuel ih =>
    intro k best timedOut hfuel
    by_cases hkn : g.n < k
    · refine ⟨k, le_refl k, fun j hj1 hj2 => by omega, fun h => by omega,
        ?_, ?_, fun j hj1 hj2 => by omega⟩
      · left
        simp [maxkLoop, hkn]
      · have : (maxkLoop g fixedK p elapsed pre (fuel + 1) k best timedOut).1 = best := by
          simp [maxkLoop, hkn]
        rw [this]
        exact beatsSol_irrefl best
    · have hres : maxkLoop g fixedK p elapsed pre (fuel + 1) k best timedOut =
          (if ubEdges pre k < (⌈p.gamma_target * ((k * (k - 1) : Nat) : ℚ) / 2⌉).toNat
           then (best, timedOut)
           else
             if (fixedK k).1.isGammaFeasible p.gamma_target
             then maxkLoop g fixedK p elapsed pre fuel (k + 1)
                (if beatsSol (fixedK k).1 best then (fixedK k).1 else best)
                (timedOut || (fixedK k).2)
             else (best, timedOut || (fixedK k).2)) := by
        simp only [maxkLoop, if_neg hkn, hdec, Bool.false_and, Bool.false_eq_true,
          if_false]
      by_cases hprune : ubEdges pre k <
          (⌈p.gamma_target * ((k * (k - 1) : Nat) : ℚ) / 2⌉).toNat
      · rw [if_pos hprune] at hres
        refine ⟨k, le_refl k, fun j hj1 hj2 => by omega,
          fun _ => Or.inl hprune, Or.inl (by rw [hres]),
          by rw [hres]; exact beatsSol_irrefl best, fun j hj1 hj2 => by omega⟩
      · rw [if_neg hprune] at hres
        by_cases hfeas : (fixedK k).1.isGammaFeasible p.gamma_target = true
        · rw [if_pos hfeas] at hres
          obtain ⟨stop, hks, hC1, hC2, hC3, hC4, hC5⟩ :=
            ih (k + 1) (if beatsSol (fixedK k).1 best then (fixedK k).1 else best)
              (timedOut || (fixedK k).2) (by omega)
          rw [← hres] at hC3 hC4 hC5
          have hbestle : ¬ beatsSol best
              (maxkLoop g fixedK p elapsed pre (fuel + 1) k best timedOut).1 := by
            by_cases hbb : beatsSol (fixedK k).1 best
            · rw [if_pos hbb] at hC4
              intro hcon
              exact hC4 (beatsSol_trans hbb hcon)
            · rw [if_neg hbb] at hC4
              exact hC4
          refine ⟨stop, by omega, ?_, hC2, ?_, hbestle, ?_⟩
          · intro j hj1 hj2
            rcases Nat.eq_or_lt_of_le hj1 with h | h
            · exact ⟨by omega, by rw [← h]; exact hprune,
                by rw [← h]; exact hfeas⟩
            · exact hC1 j (by omega) hj2
          · rcases hC3 with h | ⟨j, hj1, hj2, h⟩
            · by_cases hbb : beatsSol (fixedK k).1 best
              · rw [if_pos hbb] at h
                exact Or.inr ⟨k, le_refl k, by omega, h⟩
              · rw [if_neg hbb] at h
                exact Or.inl h
            · exact Or.inr ⟨j, by omega, hj2, h⟩
          · intro j hj1 hj2
            rcases Nat.eq_or_lt_of_le hj1 with h | h
            · by_cases hbb : beatsSol (fixedK k).1 best
              · rw [if_pos hbb] at hC4
                rw [← h]
                exact hC4
              · rw [if_neg hbb] at hC4
                rw [← h]
                exact notBeatsSol_trans hbb hC4
            · exact hC5 j (by omega) hj2
        · have hfeas' : (fixedK k).1.isGammaFeasible p.gamma_target = false :=
            Bool.not_eq_true _ ▸ Bool.of_not_eq_true hfeas
          rw [if_neg (by simp [hfeas'])] at hres
          refine ⟨k, le_refl k, fun j hj1 hj2 => by omega,
            fun _ => Or.inr hfeas', Or.inl (by rw [hres]),
            by rw [hres]; exact beatsSol_irrefl best, fun j hj1 hj2 => by omega⟩

/-- Counterexample to C4 as stated: on the edgeless 3-vertex graph with
gamma = 1/10^10 (below the 1e-9 feasibility tolerance) and the fixed-k
driver returning the feasible size-2 solution, the claimed stop rule fires
at k = 2 (ub_edges(2) = 0 is below ceil(gamma k (k-1)/2) = 1), under which
no driver result would be collected and the returned solution would be
empty; the code never prune-checks k = 2, scans on, and returns the size-2
solution. -/
theorem c4_counterexample :
    ubEdges (degreeCum gEmpty3) 2 <
      (⌈pTiny.gamma_target * ((2 * (2 - 1) : Nat) : ℚ) / 2⌉).toNat ∧
    sTwo3.isGammaFeasible pTiny.gamma_target = true ∧
    (solveMaxk gEmpty3 (fun _ => (sTwo3, false)) pTiny (fun _ => false)).1.size = 2 ∧
    (2 : Nat) ≠ 0 := by
  have hceil2 : (⌈pTiny.gamma_target * ((2 * (2 - 1) : Nat) : ℚ) / 2⌉).toNat = 1 := by
    have : (⌈pTiny.gamma_target * ((2 * (2 - 1) : Nat) : ℚ) / 2⌉) = 1 := by
      rw [Int.ceil_eq_iff]
      norm_num [pTiny]
    rw [this]
    rfl
  have hceil3 : (⌈pTiny.gamma_target * ((3 * (3 - 1) : Nat) : ℚ) / 2⌉).toNat = 1 := by
    have : (⌈pTiny.gamma_target * ((3 * (3 - 1) : Nat) : ℚ) / 2⌉) = 1 := by
      rw [Int.ceil_eq_iff]
      norm_num [pTiny]
    rw [this]
    rfl
  have hfeas : sTwo3.isGammaFeasible pTiny.gamma_target = true := by
    rw [Solution.isGammaFeasible, decide_eq_true_eq]
    norm_num [Solution.density, sTwo3, pTiny]
  refine ⟨?_, hfeas, ?_, by decide⟩
  · rw [hceil2]
    decide
  · have hstep : solveMaxk gEmpty3 (fun _ => (sTwo3, false)) pTiny (fun _ => false) =
        maxkLoop gEmpty3 (fun _ => (sTwo3, false)) pTiny (fun _ => false)
          (degreeCum gEmpty3) gEmpty3.n 3 sTwo3 false := by
      simp only [solveMaxk]
      rw [if_neg (by decide : ¬ gEmpty3.n < 2)]
      simp only [Bool.and_false, Bool.false_eq_true, if_false, hfeas, Bool.not_true]
    rw [hstep]
    have hloop : maxkLoop gEmpty3 (fun _ => (sTwo3, false)) pTiny (fun _ => false)
        (degreeCum gEmpty3) gEmpty3.n 3 sTwo3 false = (sTwo3, false) := by
      show maxkLoop gEmpty3 (fun _ => (sTwo3, false)) pTiny (fun _ => false)
        (degreeCum gEmpty3) 3 3 sTwo3 false = (sTwo3, false)
      simp only [maxkLoop]
      rw [if_neg (by decide : ¬ gEmpty3.n < 3)]
      simp only [Bool.and_false, Bool.false_eq_true, if_false]
      rw [if_pos (by rw [hceil3]; decide)]
    rw [hloop]
    rfl

/-- C4 amended: with the wall clock disabled, solve_maxk returns the empty
solution when n < 2 or the k = 2 driver result is infeasible; otherwise it
scans k upward from 3 (the upper-bound prune is not checked at k = 2),
stops at the first k ≥ 3 whose ub_edges prunes or whose driver result is
infeasible, and returns a gamma-feasible driver result that no scanned
feasible result beats on (size, then density). -/
theorem c4_maxk_behaviour (g : Graph) (fixedK : Nat → Solution × Bool)
    (p : ParamsM) (elapsed : Nat → Bool) (hto : ¬ p.max_time_seconds > 0) :
    (g.n < 2 → solveMaxk g fixedK p elapsed = (Solution.new, false)) ∧
    (2 ≤ g.n → (fixedK 2).1.isGammaFeasible p.gamma_target = false →
      (solveMaxk g fixedK p elapsed).1 = Solution.new) ∧
    (2 ≤ g.n → (fixedK 2).1.isGammaFeasible p.gamma_target = true →
      ∃ stop, 3 ≤ stop ∧
        (∀ j, 3 ≤ j → j < stop → j ≤ g.n ∧
          ¬ (ubEdges (degreeCum g) j <
            (⌈p.gamma_target * ((j * (j - 1) : Nat) : ℚ) / 2⌉).toNat) ∧
          (fixedK j).1.isGammaFeasible p.gamma_target = true) ∧
        (stop ≤ g.n →
          ubEdges (degreeCum g) stop <
            (⌈p.gamma_target * ((stop * (stop - 1) : Nat) : ℚ) / 2⌉).toNat ∨
          (fixedK stop).1.isGammaFeasible p.gamma_target = false) ∧
        ((solveMaxk g fixedK p elapsed).1 = (fixedK 2).1 ∨
          ∃ j, 3 ≤ j ∧ j < stop ∧
            (solveMaxk g fixedK p elapsed).1 = (fixedK j).1) ∧
        (solveMaxk g fixedK p elapsed).1.isGammaFeasible p.gamma_target = true ∧
        ¬ beatsSol (fixedK 2).1 (solveMaxk g fixedK p elapsed).1 ∧
        (∀ j, 3 ≤ j → j < stop →
          ¬ beatsSol (fixedK j).1 (solveMaxk g fixedK p elapsed).1)) := by
  have hdec : decide (p.max_time_seconds > 0) = false := decide_eq_false hto
  refine ⟨?_, ?_, ?_⟩
  · intro h
    simp only [solveMaxk]
    rw [if_pos h]
  · intro hn hfeas
    have hsolve : solveMaxk g fixedK p elapsed = (Solution.new, (fixedK 2).2) := by
      simp only [solveMaxk, hdec, Bool.false_and, Bool.false_eq_true, if_false]
      rw [if_neg (by omega : ¬ g.n < 2)]
      rw [if_pos (by simp [hfeas])]
    rw [hsolve]
  · intro hn hfeas
    have hsolve : solveMaxk g fixedK p elapsed =
        maxkLoop g fixedK p elapsed (degreeCum g) g.n 3 (fixedK 2).1 (fixedK 2).2 := by
      simp only [solveMaxk, hdec, Bool.false_and, Bool.false_eq_true, if_false]
      rw [if_neg (by omega : ¬ g.n < 2)]
      rw [if_neg (by simp [hfeas])]
    obtain ⟨stop, hks, hC1, hC2, hC3, hC4, hC5⟩ :=
      maxkLoop_spec g fixedK p elapsed (degreeCum g) hto g.n 3 (fixedK 2).1
        (fixedK 2).2 (by omega)
    rw [← hsolve] at hC3 hC4 hC5
    refine ⟨stop, hks, hC1, hC2, hC3, ?_, hC4, hC5⟩
    rcases hC3 with h | ⟨j, hj1, hj2, h⟩
    · rw [h]
      exact hfeas
    · rw [h]
      exact (hC1 j hj1 hj2).2.2

/-- Witness for C4's amended theorem: on the edgeless 3-vertex graph with
gamma = 1/2 and a driver oracle returning the infeasible size-2 solution,
solve_maxk returns the empty solution. -/
theorem c4_maxk_behaviour_witness :
    ¬ (pHalf.max_time_seconds > 0) ∧ 2 ≤ gEmpty3.n ∧
    sTwo3.isGammaFeasible pHalf.gamma_target = false ∧
    (solveMaxk gEmpty3 (fun _ => (sTwo3, false)) pHalf (fun _ => false)).1 =
      Solution.new := by
  have h0 : ¬ (pHalf.max_time_seconds > 0) := by norm_num [pHalf]
  have hfeas : sTwo3.isGammaFeasible pHalf.gamma_target = false := by
    rw [Solution.isGammaFeasible, decide_eq_false_iff_not]
    norm_num [Solution.density, sTwo3, pHalf]
  exact ⟨h0, by decide, hfeas,
    (c4_maxk_behaviour gEmpty3 (fun _ => (sTwo3, false)) pHalf (fun _ => false)
      h0).2.1 (by decide) hfeas⟩

/-- Counterexample to C9 as stated: for the input whose problem line is
"p col 3 2" followed by the valid edge line "e 1 2", parse_dimacs does not
succeed: the col problem line falls to the ignore arm (only the tag edge is
recognised), so the edge line hits the
"edge before problem line" error. -/
theorem c9_counterexample :
    (parseDimacs ["p col 3 2".data, "e 1 2".data]).isOk = false ∧
    (parseDimacs ["p col 3 2".data, "e 1 2".data]).isParseError = true := by
  decide

/-- C9 amended: parse_dimacs accepts only the problem-line tag edge.  With
"p edge 3 2" the same edge lines parse into the expected 3-vertex graph,
while with "p col 3 2" the problem line is ignored and the first edge line
produces the edge-before-problem-line parse error. -/
theorem c9_parse_dimacs_tags :
    (parseDimacs ["p col 3 2".data, "e 1 2".data, "e 2 3".data]).isParseError
        = true ∧
    (parseDimacs ["p edge 3 2".data, "e 1 2".data, "e 2 3".data]).isOk = true ∧
    (parseDimacs ["p edge 3 2".data, "e 1 2".data, "e 2 3".data]).theGraph.n = 3 ∧
    (∀ u, u < 3 → ∀ v, v < 3 →
      (parseDimacs ["p edge 3 2".data, "e 1 2".data, "e 2 3".data]).theGraph.adj u v
        = decide ((u, v) ∈ [(0, 1), (1, 0), (1, 2), (2, 1)])) := by
  refine ⟨by decide, by decide, by decide, by decide⟩

end MQCP
